import Mathlib

/-!
Verification of the trendspy-js request-orchestration layer.

Shallow embedding of the JavaScript sources:
* `timeframe_utils.js` (src/unnamed/part_002): timeframe canonicalization,
  durations, resolution buckets, resolution compatibility;
* `utils.js`: `decodeEscapeText`, `ensureList`;
* `client.js` (src/unnamed/part_004): `_parseProtectedJson`,
  `_extractEmbeddedData`, `_encodeItems`, and the retry/backoff and
  throttle logic of `_get`.

Strings are modelled as `List Char` (JS strings are sequences of UTF-16
code units; all characters involved here are in the BMP).  JS `Date.now()`
timestamps are `Nat` milliseconds; luxon `DateTime`s are a record of
year/month/day/hour (every datetime the library builds is at whole-hour
precision, so durations are whole hours).
-/

deriving instance DecidableEq for Except

namespace Trendspy

/-! ### Character and list-of-char helpers (JS string semantics) -/

/-- The single-quote character, `'` (code 39). -/
def quoteChar : Char := Char.ofNat 39

/-- Hex-digit test, `[0-9A-Fa-f]`. -/
def isHexDigit (c : Char) : Bool :=
  c.isDigit || (('A' ≤ c && c ≤ 'F') || ('a' ≤ c && c ≤ 'f'))

/-- Value of a decimal digit character. -/
def digitVal (c : Char) : Nat := c.toNat - 48

/-- Value of a hex digit character. -/
def hexVal (c : Char) : Nat :=
  if c.isDigit then c.toNat - 48
  else if 'a' ≤ c && c ≤ 'f' then c.toNat - 87
  else c.toNat - 55

/-- JS `parseInt` on a string of decimal digits. -/
def parseDigits (l : List Char) : Nat :=
  l.foldl (fun a c => a * 10 + digitVal c) 0

/-- Split a list of chars on a separator character; JS
`String.prototype.split` with a one-char separator (always returns at
least one piece; `"".split(c)` is `[""]`). -/
def splitOnChar (sep : Char) : List Char → List (List Char)
  | [] => [[]]
  | c :: rest =>
    if c = sep then [] :: splitOnChar sep rest
    else match splitOnChar sep rest with
      | [] => [[c]]
      | piece :: pieces => (c :: piece) :: pieces

/-- First occurrence of `pat` in `l`: returns the pieces before and after
it, or `none` when `pat` does not occur. -/
def splitFirst (pat : List Char) : List Char → Option (List Char × List Char)
  | [] => if pat.isEmpty then some ([], []) else none
  | c :: rest =>
    if pat.isPrefixOf (c :: rest) then some ([], (c :: rest).drop pat.length)
    else (splitFirst pat rest).map (fun p => (c :: p.1, p.2))

/-- JS `String.prototype.replace` with a plain-string pattern: replaces
only the first occurrence. -/
def replaceFirst (l pat rep : List Char) : List Char :=
  match splitFirst pat l with
  | none => l
  | some (a, b) => a ++ rep ++ b

/-- JS whitespace test (the characters relevant to `trim` here). -/
def isWs (c : Char) : Bool := c = ' ' || c = '\t' || c = '\n' || c = '\r'

/-- JS `String.prototype.trim`. -/
def trimChars (l : List Char) : List Char :=
  ((l.dropWhile isWs).reverse.dropWhile isWs).reverse

/-- JS `String.prototype.toLowerCase` (ASCII as used for content types). -/
def lowerChars (l : List Char) : List Char := l.map Char.toLower

/-- The list of indices `[i, i+1, ..., i+r-1]`. -/
def idxRange (i : Nat) : Nat → List Nat
  | 0 => []
  | r + 1 => i :: idxRange (i + 1) r

@[simp] theorem idxRange_zero (i : Nat) : idxRange i 0 = [] := rfl

@[simp] theorem idxRange_succ (i r : Nat) :
    idxRange i (r + 1) = i :: idxRange (i + 1) r := rfl

@[simp] theorem idxRange_length (i r : Nat) : (idxRange i r).length = r := by
  induction r generalizing i with
  | zero => rfl
  | succ r ih => simp [idxRange, ih]

/-! ### Calendar model (luxon `DateTime` at hour precision, UTC) -/

/-- A luxon `DateTime` as the library uses it: a proleptic-Gregorian
calendar date plus an hour.  All datetimes the library constructs are at
whole-hour precision. -/
structure TDateTime where
  year : Int
  month : Nat
  day : Nat
  hour : Nat
  deriving DecidableEq, Repr

/-- Gregorian leap-year test. -/
def isLeap (y : Int) : Bool :=
  y % 4 = 0 && (y % 100 ≠ 0 || y % 400 = 0)

/-- Days in a Gregorian month. -/
def daysInMonth (y : Int) (m : Nat) : Nat :=
  if m = 2 then (if isLeap y then 29 else 28)
  else if m = 4 || m = 6 || m = 9 || m = 11 then 30
  else 31

/-- Day number of a civil date (days since 1970-01-01, Hinnant's
`days_from_civil` with floor division). -/
def daysFromCivil (y : Int) (m d : Nat) : Int :=
  let y' : Int := if m ≤ 2 then y - 1 else y
  let era : Int := y'.ediv 400
  let yoe : Nat := (y' - era * 400).toNat
  let mp : Nat := (m + 9) % 12
  let doy : Nat := (153 * mp + 2) / 5 + d - 1
  let doe : Nat := yoe * 365 + yoe / 4 - yoe / 100 + doy
  era * 146097 + (doe : Int) - 719468

/-- Civil date of a day number (Hinnant's `civil_from_days`). -/
def civilFromDays (z0 : Int) : Int × Nat × Nat :=
  let z : Int := z0 + 719468
  let era : Int := z.ediv 146097
  let doe : Nat := (z - era * 146097).toNat
  let yoe : Nat := (doe - doe / 1460 + doe / 36524 - doe / 146096) / 365
  let doy : Nat := doe - (365 * yoe + yoe / 4 - yoe / 100)
  let mp : Nat := (5 * doy + 2) / 153
  let d : Nat := doy - (153 * mp + 2) / 5 + 1
  let m : Nat := if mp < 10 then mp + 3 else mp - 9
  let y : Int := (yoe : Int) + era * 400
  (if m ≤ 2 then y + 1 else y, m, d)

namespace TDateTime

/-- The instant of a `TDateTime`, in hours since the epoch. -/
def instantHours (dt : TDateTime) : Int :=
  24 * daysFromCivil dt.year dt.month dt.day + dt.hour

/-- The `TDateTime` of an instant given in hours since the epoch. -/
def ofInstantHours (t : Int) : TDateTime :=
  let h : Nat := (t.emod 24).toNat
  let c := civilFromDays (t.ediv 24)
  ⟨c.1, c.2.1, c.2.2, h⟩

/-- luxon `minus({hours: n})`. -/
def minusHours (dt : TDateTime) (n : Nat) : TDateTime :=
  ofInstantHours (dt.instantHours - n)

/-- luxon `minus({days: n})` (UTC: exactly `24 n` hours). -/
def minusDays (dt : TDateTime) (n : Nat) : TDateTime :=
  ofInstantHours (dt.instantHours - 24 * n)

/-- luxon `plus({days: n})`. -/
def plusDays (dt : TDateTime) (n : Nat) : TDateTime :=
  ofInstantHours (dt.instantHours + 24 * n)

/-- luxon `minus({months: n})`: shift the month, clamping the
day-of-month to the target month's length. -/
def minusMonths (dt : TDateTime) (n : Nat) : TDateTime :=
  let tot : Int := dt.year * 12 + ((dt.month : Int) - 1) - n
  let y : Int := tot.ediv 12
  let m : Nat := (tot.emod 12).toNat + 1
  ⟨y, m, min dt.day (daysInMonth y m), dt.hour⟩

/-- luxon `minus({years: n})`: shift the year, clamping the day-of-month
(Feb 29 → Feb 28). -/
def minusYears (dt : TDateTime) (n : Nat) : TDateTime :=
  let y : Int := dt.year - n
  ⟨y, dt.month, min dt.day (daysInMonth y dt.month), dt.hour⟩

/-- luxon `startOf('day')` at our precision: zero the hour. -/
def startOfDay (dt : TDateTime) : TDateTime := ⟨dt.year, dt.month, dt.day, 0⟩

end TDateTime

/-- Zero-pad a number to a minimum width. -/
def padNum (width n : Nat) : List Char :=
  let s := (Nat.repr n).toList
  List.replicate (width - s.length) '0' ++ s

/-- luxon `toFormat('yyyy-MM-dd')` (`DATE_FORMAT`). -/
def formatDate (dt : TDateTime) : List Char :=
  (if dt.year < 0 then ['-'] ++ padNum 4 (-dt.year).toNat
   else padNum 4 dt.year.toNat)
  ++ '-' :: padNum 2 dt.month ++ '-' :: padNum 2 dt.day

/-- luxon `toFormat("yyyy-MM-dd'T'HH")` (`DATE_T_FORMAT`). -/
def formatDateT (dt : TDateTime) : List Char :=
  formatDate dt ++ 'T' :: padNum 2 dt.hour

/-! ### `timeframe_utils.js` (src/unnamed/part_002) -/

/-- `VALID_DATE_PATTERN`: regex test
`^\d{4}-\d{2}-\d{2}(T\d{2})?$`. -/
def isValidDate (l : List Char) : Bool :=
  match l with
  | [y1, y2, y3, y4, c1, m1, m2, c2, d1, d2] =>
    y1.isDigit && y2.isDigit && y3.isDigit && y4.isDigit && c1 = '-' &&
    m1.isDigit && m2.isDigit && c2 = '-' && d1.isDigit && d2.isDigit
  | [y1, y2, y3, y4, c1, m1, m2, c2, d1, d2, t, h1, h2] =>
    y1.isDigit && y2.isDigit && y3.isDigit && y4.isDigit && c1 = '-' &&
    m1.isDigit && m2.isDigit && c2 = '-' && d1.isDigit && d2.isDigit &&
    t = 'T' && h1.isDigit && h2.isDigit
  | _ => false

/-- Unit letter class `[Hdmy]`. -/
def isUnitChar (c : Char) : Bool := c = 'H' || c = 'd' || c = 'm' || c = 'y'

/-- `OFFSET_PATTERN`: regex test `\d+[-]?[Hdmy]$` — anchored only at the
end: the string must end in one or more digits, an optional hyphen and a
unit letter; anything may precede. -/
def isValidFormat (l : List Char) : Bool :=
  match l.reverse with
  | [] => false
  | u :: rest =>
    isUnitChar u &&
      match rest with
      | [] => false
      | c :: rest2 =>
        if c = '-' then
          match rest2 with
          | [] => false
          | c2 :: _ => c2.isDigit
        else c.isDigit

/-- `extractTimeParts`: first (leftmost) match of `(\d+)[-]?([Hdmy]+)`,
returning the parsed count and the (greedy) unit-letter group.  The
scanner mirrors the regex engine: at the first digit run that is
followed (after an optional hyphen) by at least one unit letter, the
match succeeds; otherwise scanning resumes after the run. -/
def extractTimeParts (l : List Char) : Option (Nat × List Char) :=
  match l with
  | [] => none
  | c :: rest =>
    if c.isDigit then
      let digs := (c :: rest).takeWhile Char.isDigit
      let after := (c :: rest).dropWhile Char.isDigit
      let after2 := if after.headD ' ' = '-' then after.tail else after
      let units := after2.takeWhile isUnitChar
      if units.isEmpty then extractTimeParts rest
      else some (parseDigits digs, units)
    else extractTimeParts rest

/-- `decodeTrendDatetime`: parse with `DATE_T_FORMAT` when the string
contains `'T'`, else with `DATE_FORMAT`; luxon validates the calendar
ranges, yielding an invalid datetime (here `none`) otherwise. -/
def decodeTrendDatetime (l : List Char) : Option TDateTime :=
  let mk (y : Nat) (m d h : Nat) : Option TDateTime :=
    if 1 ≤ m ∧ m ≤ 12 ∧ 1 ≤ d ∧ d ≤ daysInMonth (y : Int) m ∧ h ≤ 23 then
      some ⟨(y : Int), m, d, h⟩
    else none
  if l.contains 'T' then
    match l with
    | [y1, y2, y3, y4, c1, m1, m2, c2, d1, d2, t, h1, h2] =>
      if (y1.isDigit && y2.isDigit && y3.isDigit && y4.isDigit && c1 = '-' &&
          m1.isDigit && m2.isDigit && c2 = '-' && d1.isDigit && d2.isDigit &&
          t = 'T' && h1.isDigit && h2.isDigit : Bool) then
        mk (parseDigits [y1, y2, y3, y4]) (parseDigits [m1, m2])
          (parseDigits [d1, d2]) (parseDigits [h1, h2])
      else none
    | _ => none
  else
    match l with
    | [y1, y2, y3, y4, c1, m1, m2, c2, d1, d2] =>
      if (y1.isDigit && y2.isDigit && y3.isDigit && y4.isDigit && c1 = '-' &&
          m1.isDigit && m2.isDigit && c2 = '-' && d1.isDigit && d2.isDigit : Bool) then
        mk (parseDigits [y1, y2, y3, y4]) (parseDigits [m1, m2])
          (parseDigits [d1, d2]) 0
      else none
    | _ => none

/-- Errors thrown by the timeframe utilities.  Luxon's "Invalid DateTime"
values (pattern-valid but calendar-invalid inputs, which the JS code lets
flow into garbage output strings) are modelled as the distinguished
`invalidDateTime` error. -/
inductive TfError where
  | invalidFormat (tf : List Char)
  | couldNotProcess (tf : List Char)
  | exceedsMaxTwoDates (p1 p2 : List Char)
  | exceedsMaxOffset (p1 off : List Char)
  | invalidDateTime
  | invalidUnit (u : List Char)
  | invalidOffsetParts
  deriving DecidableEq, Repr

/-- `processTwoDates`. -/
def processTwoDates (p1 p2 : List Char) : Except TfError (List Char) :=
  let isT1 := p1.contains 'T'
  let isT2 := p2.contains 'T'
  if !isT1 && !isT2 then .ok (p1 ++ ' ' :: p2)
  else
    match decodeTrendDatetime p1, decodeTrendDatetime p2 with
    | some d1, some d2 =>
      let e1 := if !isT1 && isT2 then d1.startOfDay else d1
      let e2 := if isT1 && !isT2 then d2.startOfDay else d2
      if (isT1 || isT2) && 168 < (e2.instantHours - e1.instantHours).natAbs then
        .error (.exceedsMaxTwoDates p1 p2)
      else .ok (formatDateT e1 ++ ' ' :: formatDateT e2)
    | _, _ => .error .invalidDateTime

/-- `processDateWithOffset`. -/
def processDateWithOffset (p1 off : List Char) : Except TfError (List Char) :=
  match decodeTrendDatetime p1 with
  | none => .error .invalidDateTime
  | some d1 =>
    match extractTimeParts off with
    | none => .error .invalidOffsetParts
    | some (count, unit) =>
      if unit = ['m'] || unit = ['y'] then
        let d2 := if unit = ['m'] then (d1.minusMonths count).plusDays 1
                  else d1.minusYears count
        let fmt := if p1.contains 'T' then formatDateT else formatDate
        .ok (fmt d2 ++ ' ' :: fmt d1)
      else if unit = ['H'] || unit = ['d'] then
        if p1.contains 'T' &&
            ((unit = ['d'] && 7 < count) || (unit = ['H'] && 7 * 24 < count)) then
          .error (.exceedsMaxOffset p1 off)
        else
          let fmt := if p1.contains 'T' then formatDateT else formatDate
          let d2 := if unit = ['H'] then d1.minusHours count else d1.minusDays count
          .ok (fmt d2 ++ ' ' :: fmt d1)
      else .error (.invalidUnit unit)

/-- `FIXED_TIMEFRAMES`. -/
def FIXED_TIMEFRAMES : List (List Char) :=
  ["now 1-H".toList, "now 4-H".toList, "now 1-d".toList, "now 7-d".toList,
   "today 1-m".toList, "today 3-m".toList, "today 5-y".toList,
   "today 12-m".toList, "all".toList]

/-- `convertTimeframe` — the canonicalizer.  `now` is the current UTC
instant (`DateTime.now().setZone('utc')` in the source). -/
def convertTimeframe (now : TDateTime) (timeframe : List Char)
    (convertFixedTimeframesToDates : Bool := false) : Except TfError (List Char) :=
  if timeframe ∈ FIXED_TIMEFRAMES ∧ !convertFixedTimeframesToDates then
    .ok timeframe
  else if convertFixedTimeframesToDates ∧ timeframe = "all".toList then
    .ok ("2024-01-01 ".toList ++ formatDate now)
  else
    let tf := replaceFirst (replaceFirst timeframe "now".toList (formatDateT now))
      "today".toList (formatDate now)
    match splitOnChar ' ' tf with
    | [p1, p2] =>
      if isValidDate p1 then
        if isValidDate p2 then processTwoDates p1 p2
        else if isValidFormat p2 then processDateWithOffset p1 p2
        else .error (.couldNotProcess tf)
      else .error (.couldNotProcess tf)
    | _ => .error (.invalidFormat tf)

/-- `timeframeToDuration`, as a whole number of hours (every datetime the
canonicalizer emits is at hour precision, so the luxon `Duration` is an
exact number of hours). -/
def timeframeToDuration (now : TDateTime) (timeframe : List Char) :
    Except TfError Int :=
  match convertTimeframe now timeframe true with
  | .error e => .error e
  | .ok r =>
    match splitOnChar ' ' r with
    | a :: b :: _ =>
      match decodeTrendDatetime a, decodeTrendDatetime b with
      | some d1, some d2 => .ok (d2.instantHours - d1.instantHours)
      | _, _ => .error .invalidDateTime
    | _ => .error .invalidDateTime

/-- `getResolutionAndRange`. -/
def getResolutionAndRange (now : TDateTime) (timeframe : List Char) :
    Except TfError (String × String) :=
  match timeframeToDuration now timeframe with
  | .error e => .error e
  | .ok hours =>
    .ok (if hours < 5 then ("1 minute", "delta < 5 hours")
      else if hours < 36 then ("8 minutes", "5 hours <= delta < 36 hours")
      else if hours < 72 then ("16 minutes", "36 hours <= delta < 72 hours")
      else if hours < 24 * 8 then ("1 hour", "72 hours <= delta < 8 days")
      else if hours < 24 * 270 then ("1 day", "8 days <= delta < 270 days")
      else if hours < 24 * 1900 then ("1 week", "270 days <= delta < 1900 days")
      else ("1 month", "delta >= 1900 days"))

/-- Errors thrown by `checkTimeframeResolution`.  The
`differentResolutions` report carries, per element, the timeframe, its
duration and its (resolution, range) pair; `ratioTooLarge` carries the
extreme durations and the timeframes that produced them. -/
inductive ResErr where
  | tf (e : TfError)
  | differentResolutions (report : List (List Char × Int × (String × String)))
  | ratioTooLarge (maxDur : Int) (maxTf : List Char) (minDur : Int) (minTf : List Char)
  | emptyInput
  deriving DecidableEq, Repr

/-- `checkTimeframeResolution` (after `ensureList`: the argument is the
coerced list; a scalar becomes a one-element list).  An empty list makes
the JS code crash on `durations[0]`, modelled as `emptyInput`.  The JS
`new Set(values).size > 1` test is modelled with `List.dedup` (same
cardinality). -/
def checkTimeframeResolution (now : TDateTime) (timeframes : List (List Char)) :
    Except ResErr Unit :=
  match timeframes.mapM (fun tf => getResolutionAndRange now tf) with
  | .error e => .error (.tf e)
  | .ok resolutions =>
    match timeframes.mapM (fun tf => timeframeToDuration now tf) with
    | .error e => .error (.tf e)
    | .ok durations =>
      let resolutionValues := resolutions.map Prod.fst
      if 1 < resolutionValues.dedup.length then
        .error (.differentResolutions (timeframes.zip (durations.zip resolutions)))
      else
        match durations, timeframes with
        | d0 :: _, t0 :: _ =>
          let pairs := durations.zip timeframes
          let minP := pairs.foldl (fun acc c => if c.1 < acc.1 then c else acc) (d0, t0)
          let maxP := pairs.foldl (fun acc c => if acc.1 < c.1 then c else acc) (d0, t0)
          if minP.1 * 2 ≤ maxP.1 then
            .error (.ratioTooLarge maxP.1 maxP.2 minP.1 minP.2)
          else .ok ()
        | _, _ => .error .emptyInput

/-! ### `utils.js`: `decodeEscapeText` -/

/-- First global replace of `decodeEscapeText`:
`replace(/\\x([0-9A-Fa-f]{2})/g, fromCharCode)` — non-overlapping, left
to right. -/
def replaceHexEscapes : List Char → List Char
  | '\\' :: 'x' :: h1 :: h2 :: rest =>
    if isHexDigit h1 && isHexDigit h2 then
      Char.ofNat (16 * hexVal h1 + hexVal h2) :: replaceHexEscapes rest
    else '\\' :: replaceHexEscapes ('x' :: h1 :: h2 :: rest)
  | c :: rest => c :: replaceHexEscapes rest
  | [] => []

/-- Second global replace: `replace(/\\u([0-9A-Fa-f]{4})/g, fromCharCode)`. -/
def replaceUnicodeEscapes : List Char → List Char
  | '\\' :: 'u' :: h1 :: h2 :: h3 :: h4 :: rest =>
    if isHexDigit h1 && isHexDigit h2 && isHexDigit h3 && isHexDigit h4 then
      Char.ofNat (4096 * hexVal h1 + 256 * hexVal h2 + 16 * hexVal h3 + hexVal h4)
        :: replaceUnicodeEscapes rest
    else '\\' :: replaceUnicodeEscapes ('u' :: h1 :: h2 :: h3 :: h4 :: rest)
  | c :: rest => c :: replaceUnicodeEscapes rest
  | [] => []

/-- A character matched by `.` in a JS regex without the `s` flag. -/
def isRegexDot (c : Char) : Bool :=
  !(c = '\n' || c = '\r' || c = Char.ofNat 0x2028 || c = Char.ofNat 0x2029)

/-- Third global replace: `replace(/\\(.)/g, '$1')`. -/
def replaceBackslashEscapes : List Char → List Char
  | '\\' :: c :: rest =>
    if isRegexDot c then c :: replaceBackslashEscapes rest
    else '\\' :: replaceBackslashEscapes (c :: rest)
  | c :: rest => c :: replaceBackslashEscapes rest
  | [] => []

/-- `decodeEscapeText`: the three global replaces in order — hex-byte
escapes, then unicode-codepoint escapes, then generic backslash escapes. -/
def decodeEscapeText (l : List Char) : List Char :=
  replaceBackslashEscapes (replaceUnicodeEscapes (replaceHexEscapes l))

/-! ### `client.js` (src/unnamed/part_004) -/

/-- The literal text `JSON.parse('` — the fixed part of the pattern
`/JSON\.parse\('([^']+)'\)/`. -/
def jsonParseMarker : List Char :=
  "JSON.parse(".toList ++ [quoteChar]

/-- One attempt of the regex `/JSON\.parse\('([^']+)'\)/` at the start of
`l`: the marker, then a non-empty run of non-quote characters, then `')`.
Returns the captured group. -/
def jpMatchAt (l : List Char) : Option (List Char) :=
  if jsonParseMarker.isPrefixOf l then
    let afterM := l.drop jsonParseMarker.length
    let lit := afterM.takeWhile (fun c => c ≠ quoteChar)
    match afterM.drop lit.length with
    | q :: r :: _ =>
      if !lit.isEmpty && q = quoteChar && r = ')' then some lit else none
    | _ => none
  else none

/-- Leftmost match of `/JSON\.parse\('([^']+)'\)/` over the whole text
(the regex engine advances the start position one character at a time). -/
def scanJP : List Char → Option (List Char)
  | [] => none
  | c :: rest =>
    match jpMatchAt (c :: rest) with
    | some lit => some lit
    | none => scanJP rest

/-- `Trends._extractEmbeddedData`, up to the `JSON.parse` boundary: the
value returned is the decoded string that the code hands to `JSON.parse`
(a JS builtin); when the pattern does not match, the code logs a warning
and returns `null`, modelled as `none`. -/
def extractEmbeddedData (text : List Char) : Option (List Char) :=
  (scanJP text).map decodeEscapeText

/-- The content-type allow-list of `Trends._parseProtectedJson`. -/
def validContentTypes : List (List Char) :=
  ["application/json".toList, "application/javascript".toList,
   "text/javascript".toList]

/-- `(response.headers['content-type'] || '').split(';')[0].trim().toLowerCase()`. -/
def normalizeContentType (header : Option (List Char)) : List Char :=
  lowerChars (trimChars ((splitOnChar ';' (header.getD [])).headD []))

/-- `response.data.split('\n').pop()` — the last newline-separated line
of the body. -/
def jsLastLine (body : List Char) : List Char :=
  (splitOnChar '\n' body).getLastD []

/-- Modelled from the spec: "discard the response's first line (a
protection preamble) and parse the remainder" — the body with its first
line removed (C1 compares this to what the code actually parses). -/
def specRemainderAfterFirstLine (body : List Char) : List Char :=
  match splitOnChar '\n' body with
  | [] => []
  | _ :: rest => List.intercalate ['\n'] rest

/-- `Trends._parseProtectedJson`, parameterized by the `JSON.parse`
builtin: validate status and content type, then parse the last line of
the body, failing when that parse fails (the `try`/`catch`). -/
def parseProtectedJson {α : Type} (jsonParse : List Char → Option α)
    (status : Nat) (contentTypeHeader : Option (List Char)) (body : List Char) :
    Except (List Char) α :=
  let contentType := normalizeContentType contentTypeHeader
  if status ≠ 200 ∨ contentType ∉ validContentTypes then
    .error "Invalid response".toList
  else
    match jsonParse (jsLastLine body) with
    | some v => .ok v
    | none => .error "Failed to parse JSON data".toList

/-! #### `Trends._encodeItems` -/

/-- One comparison item.  `time` and `geo` are read positionally from the
doubled lists and may be `undefined` (`none`) when the keyword list was
doubled past the other lists' lengths. -/
structure ComparisonItem where
  keyword : String
  time : Option String
  geo : Option String
  deriving DecidableEq, Repr

/-- The doubling loop, with explicit fuel so that the recursion is
structural (and hence kernel-reducible). -/
def doubleUntilGo (maxLen : Nat) : Nat → List α → List α
  | 0, l => l
  | fuel + 1, l =>
    if maxLen ≤ l.length then l
    else doubleUntilGo maxLen fuel (l ++ l)

/-- `while (arr.length < maxLen) arr.push(...arr)` — repeated
self-concatenation.  `maxLen` doublings are always enough fuel for a
nonempty list (each doubling at least doubles the length); on an empty
list the JS loop would not terminate, a case that is unreachable because
the divisibility check rejects empty inputs. -/
def doubleUntil (maxLen : Nat) (l : List α) : List α :=
  doubleUntilGo maxLen maxLen l

inductive EncodeError where
  | ambiguous (lengths : List Nat)
  deriving DecidableEq, Repr

/-- `Trends._encodeItems` (after the scalar-to-list coercion of its three
arguments).  `maxLen % len === 0` is false in JS when `len` is `0`
(`NaN !== 0`). -/
def encodeItems (keywords timeframes geos : List String) :
    Except EncodeError (List ComparisonItem) :=
  let lengths := [keywords.length, timeframes.length, geos.length]
  let maxLen := lengths.foldl Nat.max 0
  if lengths.all (fun len => len ≠ 0 && maxLen % len = 0) then
    let d0 := doubleUntil maxLen keywords
    let d1 := doubleUntil maxLen timeframes
    let d2 := doubleUntil maxLen geos
    .ok ((idxRange 0 d0.length).map (fun i => ⟨d0.getD i "", d1.get? i, d2.get? i⟩))
  else .error (.ambiguous lengths)

/-! #### `Trends._get`: retry/backoff loop -/

/-- What one attempt of the inner loop of `_get` observes: either a
response object with a status code (recorded in `responseCodes`), or a
thrown transport error (the `catch` branch; optionally carrying
`error.response.status`). -/
inductive AttemptResult where
  | resp (status : Nat)
  | err (status : Option Nat)
  deriving DecidableEq, Repr

/-- Does an attempt deliver a 200 response? -/
def isOk200 : AttemptResult → Bool
  | .resp s => s = 200
  | .err _ => false

inductive GetOutcome where
  | success (attemptIdx : Nat)
  | exhausted
  deriving DecidableEq, Repr

/-- The `while (retries > 0)` loop of `_get`.  `o k` is what the `k`-th
attempt (0-based) observes; `r` is the current `retries` value, `i` the
next attempt index, `codes` the accumulated `responseCodes`, `sleeps`
the backoff sleeps so far as (attempt index, seconds) pairs.  On 429/302
the wait is `Math.pow(2, maxRetries - retries) * 5` seconds. -/
def getLoop (maxRetries : Nat) (o : Nat → AttemptResult) :
    Nat → Nat → List Nat → List (Nat × Nat) →
    GetOutcome × List Nat × List (Nat × Nat)
  | 0, _, codes, sleeps => (.exhausted, codes, sleeps)
  | r + 1, i, codes, sleeps =>
    match o i with
    | .resp s =>
      if s = 200 then (.success i, codes ++ [s], sleeps)
      else
        getLoop maxRetries o r (i + 1) (codes ++ [s])
          (if s = 429 ∨ s = 302 then
            sleeps ++ [(i, 2 ^ (maxRetries - (r + 1)) * 5)] else sleeps)
    | .err _ => getLoop maxRetries o r (i + 1) codes sleeps

/-- `Trends._get` at the level the claims need: run the retry loop; on
exhaustion, fail carrying the observed status codes and the
increase-your-delay advisory flag (`429`s form a strict majority of the
observed codes). -/
def trendsGet (maxRetries : Nat) (o : Nat → AttemptResult) :
    Except (List Nat × Bool) Nat :=
  match getLoop maxRetries o maxRetries 0 [] [] with
  | (.success i, _, _) => .ok i
  | (.exhausted, codes, _) =>
    .error (codes, codes.length < 2 * codes.count 429)

/-- The backoff sleeps `_get` performs. -/
def trendsGetSleeps (maxRetries : Nat) (o : Nat → AttemptResult) :
    List (Nat × Nat) :=
  (getLoop maxRetries o maxRetries 0 [] []).2.2

/-! #### `Trends._get`: throttle (rate limiter) -/

/-- `Math.min(...set)` for a nonempty list. -/
def jsMin (l : List Nat) : Nat :=
  match l with
  | [] => 0
  | x :: xs => xs.foldl Nat.min x

/-- One pass through the `if (this.requestDelay)` block of `_get`:
`now` is `Date.now()` when the attempt starts, `s` the tracked
`lastRequestTimes` (a JS `Set`, insertion-ordered and deduplicated).
Sleeps `max(0, requestDelay*1000 - (now - min))`, then replaces the
oldest timestamp with the post-sleep `Date.now()`.  Returns the dispatch
timestamp and the new state. -/
def throttleStep (requestDelay : Nat) (s : List Nat) (now : Nat) : Nat × List Nat :=
  let m := jsMin s
  let sleepTime := requestDelay * 1000 - (now - m)
  let t := now + sleepTime
  let rest := s.filter (fun x => x ≠ m)
  (t, if t ∈ rest then rest else rest ++ [t])

/-- Dispatch timestamps of a sequence of throttled dispatches;
`arrivals` are the `Date.now()` values at which each dispatch reaches
the throttle gate. -/
def throttleTimes (requestDelay : Nat) (s : List Nat) : List Nat → List Nat
  | [] => []
  | a :: as =>
    let p := throttleStep requestDelay s a
    p.1 :: throttleTimes requestDelay p.2 as

/-- The tracked-timestamps state after a sequence of dispatches. -/
def throttleStateAfter (requestDelay : Nat) (s : List Nat) : List Nat → List Nat
  | [] => s
  | a :: as => throttleStateAfter requestDelay (throttleStep requestDelay s a).2 as

/-- A physically meaningful arrival schedule: each dispatch reaches the
throttle gate no earlier than every tracked timestamp (`Date.now()` is
monotone, and tracked timestamps are past `Date.now()` readings or the
initial fill `{0, 1}`). -/
def chainOk (requestDelay : Nat) : List Nat → List Nat → Bool
  | _, [] => true
  | s, a :: as =>
    s.all (fun x => x ≤ a) &&
      chainOk requestDelay (throttleStep requestDelay s a).2 as

/-! ### Theorems -/


/-- A fixed sample "current UTC instant" for concrete evaluations (the
inputs below contain no `now`/`today` marker unless noted, so the value
is irrelevant there). -/
def nowSample : TDateTime := ⟨2024, 9, 12, 23⟩

/-- Spec-side resolution-bucket table, following the claim's words:
strict ascending thresholds at 5, 36, 72, 192, 6480 and 45600 hours. -/
def specBucketOfHours (h : Int) : String :=
  if h < 5 then "1 minute"
  else if h < 36 then "8 minutes"
  else if h < 72 then "16 minutes"
  else if h < 192 then "1 hour"
  else if h < 6480 then "1 day"
  else if h < 45600 then "1 week"
  else "1 month"

/-- C6: for a date-like first part (one that parses) and a month/year
offset, the result is "(anchor minus the duration) anchor", with one
calendar day added to the start for month units only, both endpoints at
the anchor's precision; in particular
`canonicalize("2024-09-12 1-m") = "2024-08-13 2024-09-12"`. -/
theorem processDateWithOffset_month_year_spec :
    (∀ (p1 off : List Char) (dt : TDateTime) (n : Nat) (u : List Char),
      decodeTrendDatetime p1 = some dt →
      extractTimeParts off = some (n, u) →
      (u = ['m'] →
        processDateWithOffset p1 off =
          .ok ((if p1.contains 'T' then formatDateT else formatDate)
                ((dt.minusMonths n).plusDays 1) ++ ' ' ::
              (if p1.contains 'T' then formatDateT else formatDate) dt))
      ∧ (u = ['y'] →
        processDateWithOffset p1 off =
          .ok ((if p1.contains 'T' then formatDateT else formatDate)
                (dt.minusYears n) ++ ' ' ::
              (if p1.contains 'T' then formatDateT else formatDate) dt)))
    ∧ (∀ now : TDateTime,
        convertTimeframe now "2024-09-12 1-m".toList false =
          .ok "2024-08-13 2024-09-12".toList) := by
  constructor
  · intro p1 off dt n u h1 h2
    constructor
    · rintro rfl
      simp [processDateWithOffset, h1, h2]
    · rintro rfl
      simp [processDateWithOffset, h1, h2]
  · intro now
    rfl

theorem processDateWithOffset_month_year_spec_witness :
    decodeTrendDatetime "2024-09-12".toList = some ⟨2024, 9, 12, 0⟩ ∧
    extractTimeParts "1-m".toList = some (1, ['m']) ∧
    processDateWithOffset "2024-09-12".toList "1-m".toList =
      .ok "2024-08-13 2024-09-12".toList := by
  refine ⟨by decide, by decide, ?_⟩
  have h := (processDateWithOffset_month_year_spec.1 "2024-09-12".toList
    "1-m".toList ⟨2024, 9, 12, 0⟩ 1 ['m'] (by decide) (by decide)).1 rfl
  exact h.trans (by decide)

/-- C7: two date-like parts.  With no hour anywhere the parts are joined
verbatim; with an hour on either side, the hour-less part defaults to
midnight, a gap of more than 7 days (168 hours) fails, and otherwise both
endpoints are formatted at hour precision; in particular
`canonicalize("2024-09-12T23 2024-09-13") = "2024-09-12T23 2024-09-13T00"`. -/
theorem processTwoDates_spec :
    (∀ p1 p2 : List Char, 'T' ∉ p1 → 'T' ∉ p2 →
      processTwoDates p1 p2 = .ok (p1 ++ ' ' :: p2))
    ∧ (∀ (p1 p2 : List Char) (d1 d2 : TDateTime),
        ('T' ∈ p1 ∨ 'T' ∈ p2) →
        decodeTrendDatetime p1 = some d1 →
        decodeTrendDatetime p2 = some d2 →
        (168 <
            (((if 'T' ∉ p1 ∧ 'T' ∈ p2 then d1.startOfDay else d1)
                : TDateTime).instantHours -
              ((if 'T' ∈ p1 ∧ 'T' ∉ p2 then d2.startOfDay else d2)
                : TDateTime).instantHours).natAbs →
          processTwoDates p1 p2 = .error (.exceedsMaxTwoDates p1 p2))
        ∧ ((((if 'T' ∉ p1 ∧ 'T' ∈ p2 then d1.startOfDay else d1)
              : TDateTime).instantHours -
            ((if 'T' ∈ p1 ∧ 'T' ∉ p2 then d2.startOfDay else d2)
              : TDateTime).instantHours).natAbs ≤ 168 →
          processTwoDates p1 p2 =
            .ok (formatDateT
                (if 'T' ∉ p1 ∧ 'T' ∈ p2 then d1.startOfDay else d1)
              ++ ' ' :: formatDateT
                (if 'T' ∈ p1 ∧ 'T' ∉ p2 then d2.startOfDay else d2))))
    ∧ (∀ now : TDateTime,
        convertTimeframe now "2024-09-12T23 2024-09-13".toList false =
          .ok "2024-09-12T23 2024-09-13T00".toList) := by
  refine ⟨?_, ?_, fun now => rfl⟩
  · intro p1 p2 h1 h2
    simp [processTwoDates, List.contains, List.elem_eq_mem, h1, h2]
  · intro p1 p2 d1 d2 hT h1 h2
    by_cases hp : 'T' ∈ p1 <;> by_cases hq : 'T' ∈ p2 <;>
      [skip; skip; skip; exact absurd hT (by simp [hp, hq])] <;>
    constructor <;> intro hcmp <;>
      simp_all [processTwoDates, List.contains, List.elem_eq_mem] <;>
      omega

theorem processTwoDates_spec_witness :
    ("2024-09-12T23".toList.contains 'T' || "2024-09-13".toList.contains 'T') = true ∧
    decodeTrendDatetime "2024-09-12T23".toList = some ⟨2024, 9, 12, 23⟩ ∧
    decodeTrendDatetime "2024-09-13".toList = some ⟨2024, 9, 13, 0⟩ ∧
    processTwoDates "2024-09-12T23".toList "2024-09-13".toList =
      .ok "2024-09-12T23 2024-09-13T00".toList := by
  refine ⟨by decide, by decide, by decide, ?_⟩
  have h := ((processTwoDates_spec.2.1 "2024-09-12T23".toList "2024-09-13".toList
    ⟨2024, 9, 12, 23⟩ ⟨2024, 9, 13, 0⟩ (by decide) (by decide) (by decide)).2
    (by decide))
  exact h.trans (by decide)

/-- C8: `getResolutionAndRange` classifies the duration (in hours)
against the strict ascending thresholds 5/36/72/192/6480/45600; a
duration strictly below a threshold gets the bucket below it, a duration
exactly at a threshold gets the next bucket up (checked concretely at
every threshold). -/
theorem getResolutionAndRange_spec :
    (∀ (now : TDateTime) (tf : List Char) (h : Int),
      timeframeToDuration now tf = .ok h →
      (getResolutionAndRange now tf).map Prod.fst = .ok (specBucketOfHours h))
    ∧ ((getResolutionAndRange nowSample "2024-01-01T00 2024-01-01T04".toList).map
        Prod.fst = .ok "1 minute"
      ∧ (getResolutionAndRange nowSample "2024-01-01T00 2024-01-01T05".toList).map
        Prod.fst = .ok "8 minutes")
    ∧ ((getResolutionAndRange nowSample "2024-01-01T00 2024-01-02T00".toList).map
        Prod.fst = .ok "8 minutes"
      ∧ (getResolutionAndRange nowSample "2024-01-01T00 2024-01-02T12".toList).map
        Prod.fst = .ok "16 minutes")
    ∧ ((getResolutionAndRange nowSample "2024-01-01T00 2024-01-03T00".toList).map
        Prod.fst = .ok "16 minutes"
      ∧ (getResolutionAndRange nowSample "2024-01-01T00 2024-01-04T00".toList).map
        Prod.fst = .ok "1 hour")
    ∧ ((getResolutionAndRange nowSample "2024-01-01 2024-01-05".toList).map
        Prod.fst = .ok "1 hour"
      ∧ (getResolutionAndRange nowSample "2024-01-01 2024-01-09".toList).map
        Prod.fst = .ok "1 day")
    ∧ ((getResolutionAndRange nowSample "2024-01-01 2024-08-28".toList).map
        Prod.fst = .ok "1 day"
      ∧ (getResolutionAndRange nowSample "2024-01-01 2024-09-27".toList).map
        Prod.fst = .ok "1 week")
    ∧ ((getResolutionAndRange nowSample "2024-01-01 2026-09-27".toList).map
        Prod.fst = .ok "1 week"
      ∧ (getResolutionAndRange nowSample "2024-01-01 2029-03-15".toList).map
        Prod.fst = .ok "1 month") := by
  refine ⟨?_, by decide, by decide, by decide, by decide, by decide, by decide⟩
  intro now tf h hdur
  simp only [getResolutionAndRange, hdur, specBucketOfHours, Except.map]
  split_ifs <;> first | rfl | omega

/-- `takeWhile` runs through a block on which the predicate holds and
stops at the first failing element. -/
theorem takeWhile_append_stop {α : Type} (p : α → Bool) (l : List α) (a : α)
    (r : List α) (hl : ∀ x ∈ l, p x = true) (ha : p a = false) :
    (l ++ a :: r).takeWhile p = l := by
  induction l with
  | nil => simp [List.takeWhile_cons, ha]
  | cons c t ih =>
    have hc : p c = true := hl c (by simp)
    simp only [List.cons_append, List.takeWhile_cons, hc, if_true]
    rw [ih (fun x hx => hl x (by simp [hx]))]

/-- C1 (amended): the protected-JSON parser fails unless the status is
200 and the normalized content type is allow-listed; when validation
passes it hands the **last** newline-separated line of the body to
`JSON.parse`, failing when that parse fails. -/
theorem parseProtectedJson_spec {α : Type} (jsonParse : List Char → Option α)
    (status : Nat) (contentTypeHeader : Option (List Char)) (body : List Char) :
    ((status = 200 ∧ normalizeContentType contentTypeHeader ∈ validContentTypes) →
      parseProtectedJson jsonParse status contentTypeHeader body =
        (match jsonParse (jsLastLine body) with
         | some v => .ok v
         | none => .error "Failed to parse JSON data".toList))
    ∧ (¬(status = 200 ∧ normalizeContentType contentTypeHeader ∈ validContentTypes) →
      parseProtectedJson jsonParse status contentTypeHeader body =
        .error "Invalid response".toList) := by
  constructor
  · intro h
    have hcond : ¬(status ≠ 200 ∨
        normalizeContentType contentTypeHeader ∉ validContentTypes) := by
      push_neg
      exact h
    simp only [parseProtectedJson]
    rw [if_neg hcond]
  · intro h
    have hcond : status ≠ 200 ∨
        normalizeContentType contentTypeHeader ∉ validContentTypes := by
      by_cases hs : status = 200
      · exact Or.inr fun hm => h ⟨hs, hm⟩
      · exact Or.inl hs
    simp only [parseProtectedJson]
    rw [if_pos hcond]

theorem parseProtectedJson_spec_witness :
    (200 = 200 ∧ normalizeContentType (some "application/json".toList) ∈
      validContentTypes) ∧
    parseProtectedJson (fun l => some l.length) 200
      (some "application/json".toList) "junk\npayload".toList = .ok 7 := by
  refine ⟨⟨rfl, by decide⟩, ?_⟩
  have h := (parseProtectedJson_spec (fun l => some l.length) 200
    (some "application/json".toList) "junk\npayload".toList).1 ⟨rfl, by decide⟩
  exact h.trans (by decide)

/-- C1 counterexample: the claim says the remainder after the first line
is parsed; the code parses the last line.  On a body whose JSON payload
spans two lines, the remainder (`"[1,\n2]"`, which `JSON.parse` accepts)
differs from the last line (`"2]"`, which `JSON.parse` rejects), and the
code fails where the claim says it succeeds. -/
theorem parseProtectedJson_counterexample :
    jsLastLine "junk\n[1,\n2]".toList = "2]".toList ∧
    specRemainderAfterFirstLine "junk\n[1,\n2]".toList = "[1,\n2]".toList ∧
    "2]".toList ≠ "[1,\n2]".toList ∧
    parseProtectedJson (fun l => if l = "[1,\n2]".toList then some 0 else none)
      200 (some "application/json".toList) "junk\n[1,\n2]".toList =
      .error "Failed to parse JSON data".toList := by
  refine ⟨by decide, by decide, by decide, by decide⟩

/-- The single leftmost-match step of `_extractEmbeddedData`'s regex on a
text decomposed around its literal. -/
theorem jpMatchAt_at_literal (lit post : List Char) (hne : lit ≠ [])
    (hq : quoteChar ∉ lit) :
    jpMatchAt (jsonParseMarker ++ lit ++ quoteChar :: ')' :: post) = some lit := by
  have hpre : jsonParseMarker.isPrefixOf
      (jsonParseMarker ++ lit ++ quoteChar :: ')' :: post) = true := by
    rw [List.isPrefixOf_iff_prefix, List.append_assoc]
    exact List.prefix_append _ _
  have hdrop : (jsonParseMarker ++ lit ++ quoteChar :: ')' :: post).drop
      jsonParseMarker.length = lit ++ quoteChar :: ')' :: post := by
    rw [List.append_assoc]
    exact List.drop_left _ _
  have htake : (lit ++ quoteChar :: ')' :: post).takeWhile
      (fun c => c ≠ quoteChar) = lit := by
    refine takeWhile_append_stop _ _ _ _ (fun x hx => ?_) (by simp)
    simp only [ne_eq, decide_eq_true_eq]
    exact fun hx' => hq (hx' ▸ hx)
  simp only [jpMatchAt, hpre, if_true, hdrop, htake, List.drop_left]
  simp [hne]

/-- C2 (amended): when the body contains a well-formed
`JSON.parse('...')` literal and no earlier position matches, the literal
is extracted and un-escaped — hex-byte escapes, then unicode-codepoint
escapes, then generic backslash escapes, in that order — and the result
is handed to `JSON.parse`.  (When no literal is found, the code logs a
warning and returns `null` — see the counterexample.) -/
theorem extractEmbeddedData_spec (pre lit post : List Char) (hne : lit ≠ [])
    (hq : quoteChar ∉ lit)
    (hfirst : ∀ k, k < pre.length →
      jpMatchAt ((pre ++ jsonParseMarker ++ lit ++ quoteChar :: ')' :: post).drop k)
        = none) :
    extractEmbeddedData (pre ++ jsonParseMarker ++ lit ++ quoteChar :: ')' :: post) =
      some (replaceBackslashEscapes (replaceUnicodeEscapes (replaceHexEscapes lit))) := by
  have hscan : ∀ (pre' : List Char),
      (∀ k, k < pre'.length →
        jpMatchAt ((pre' ++ jsonParseMarker ++ lit ++ quoteChar :: ')' :: post).drop k)
          = none) →
      scanJP (pre' ++ jsonParseMarker ++ lit ++ quoteChar :: ')' :: post) = some lit := by
    intro pre'
    induction pre' with
    | nil =>
      intro _
      show scanJP (jsonParseMarker ++ lit ++ quoteChar :: ')' :: post) = some lit
      rw [show jsonParseMarker ++ lit ++ quoteChar :: ')' :: post =
        'J' :: ("SON.parse(".toList ++ [quoteChar] ++ lit ++ quoteChar :: ')' :: post)
          from by simp [jsonParseMarker]]
      rw [scanJP]
      rw [show 'J' :: ("SON.parse(".toList ++ [quoteChar] ++ lit ++
        quoteChar :: ')' :: post) =
          jsonParseMarker ++ lit ++ quoteChar :: ')' :: post from by
            simp [jsonParseMarker]]
      rw [jpMatchAt_at_literal lit post hne hq]
    | cons c pre'' ih =>
      intro hf
      have h0 := hf 0 (by simp)
      simp only [List.drop_zero] at h0
      have : scanJP ((c :: pre'') ++ jsonParseMarker ++ lit ++
          quoteChar :: ')' :: post) =
          scanJP (pre'' ++ jsonParseMarker ++ lit ++ quoteChar :: ')' :: post) := by
        simp only [List.cons_append]
        rw [scanJP]
        simp only [List.cons_append] at h0
        rw [h0]
      rw [this]
      exact ih (fun k hk => by
        have := hf (k + 1) (by simp; omega)
        simpa [List.drop_succ_cons] using this)
  unfold extractEmbeddedData
  rw [hscan pre hfirst]
  rfl

theorem extractEmbeddedData_spec_witness :
    ("[1,2]".toList ≠ [] ∧ quoteChar ∉ "[1,2]".toList ∧
      (∀ k, k < ("var a = ".toList).length →
        jpMatchAt (("var a = ".toList ++ jsonParseMarker ++ "[1,2]".toList ++
          quoteChar :: ')' :: ";".toList).drop k) = none)) ∧
    extractEmbeddedData ("var a = ".toList ++ jsonParseMarker ++ "[1,2]".toList ++
      quoteChar :: ')' :: ";".toList) = some "[1,2]".toList := by
  refine ⟨⟨by decide, by decide, by decide⟩, ?_⟩
  have h := extractEmbeddedData_spec "var a = ".toList "[1,2]".toList ";".toList
    (by decide) (by decide) (by decide)
  exact h.trans (by decide)

/-- C2 counterexample: on a body with no `JSON.parse('...')` literal the
code does **not** fail with a format error — `_extractEmbeddedData` logs
a warning and returns `null` (modelled as `none`). -/
theorem extractEmbeddedData_counterexample :
    scanJP "response without any embedded literal".toList = none ∧
    extractEmbeddedData "response without any embedded literal".toList = none := by
  exact ⟨by decide, by decide⟩

theorem getResolutionAndRange_spec_witness :
    timeframeToDuration nowSample "now 4-H".toList = .ok 4 ∧
    (getResolutionAndRange nowSample "now 4-H".toList).map Prod.fst =
      .ok (specBucketOfHours 4) := by
  refine ⟨by decide, ?_⟩
  exact getResolutionAndRange_spec.1 nowSample "now 4-H".toList 4 (by decide)

/-! #### Helper lemmas for C10 (the lenient offset pattern) -/

/-- Anatomy of a `VALID_DATE_PATTERN` match: length 10 or 13, every
character a digit, hyphen or `'T'`, a digit first and a digit last. -/
theorem isValidDate_elim (l : List Char) (h : isValidDate l = true) :
    (∀ c ∈ l, c.isDigit = true ∨ c = '-' ∨ c = 'T') ∧
    (∃ c t, l = c :: t ∧ c.isDigit = true) ∧
    (l.getLastD ' ').isDigit = true := by
  rcases l with _|⟨a1,l⟩; · exact absurd h (by simp [isValidDate])
  rcases l with _|⟨a2,l⟩; · exact absurd h (by simp [isValidDate])
  rcases l with _|⟨a3,l⟩; · exact absurd h (by simp [isValidDate])
  rcases l with _|⟨a4,l⟩; · exact absurd h (by simp [isValidDate])
  rcases l with _|⟨a5,l⟩; · exact absurd h (by simp [isValidDate])
  rcases l with _|⟨a6,l⟩; · exact absurd h (by simp [isValidDate])
  rcases l with _|⟨a7,l⟩; · exact absurd h (by simp [isValidDate])
  rcases l with _|⟨a8,l⟩; · exact absurd h (by simp [isValidDate])
  rcases l with _|⟨a9,l⟩; · exact absurd h (by simp [isValidDate])
  rcases l with _|⟨a10,l⟩; · exact absurd h (by simp [isValidDate])
  rcases l with _|⟨a11,l⟩
  · simp only [isValidDate, Bool.and_eq_true, decide_eq_true_eq, and_assoc] at h
    obtain ⟨h1, h2, h3, h4, h5, h6, h7, h8, h9, h10⟩ := h
    refine ⟨?_, ⟨a1, _, rfl, h1⟩, by simpa [List.getLastD] using h10⟩
    intro c hc
    simp only [List.mem_cons, List.not_mem_nil, or_false] at hc
    rcases hc with rfl|rfl|rfl|rfl|rfl|rfl|rfl|rfl|rfl|rfl <;> tauto
  rcases l with _|⟨a12,l⟩; · exact absurd h (by simp [isValidDate])
  rcases l with _|⟨a13,l⟩; · exact absurd h (by simp [isValidDate])
  rcases l with _|⟨a14,l⟩
  · simp only [isValidDate, Bool.and_eq_true, decide_eq_true_eq, and_assoc] at h
    obtain ⟨h1, h2, h3, h4, h5, h6, h7, h8, h9, h10, h11, h12, h13⟩ := h
    refine ⟨?_, ⟨a1, _, rfl, h1⟩, by simpa [List.getLastD] using h13⟩
    intro c hc
    simp only [List.mem_cons, List.not_mem_nil, or_false] at hc
    rcases hc with rfl|rfl|rfl|rfl|rfl|rfl|rfl|rfl|rfl|rfl|rfl|rfl|rfl <;> tauto
  exact absurd h (by simp [isValidDate])

/-- A string whose first character is a digit is not a fixed timeframe
(every fixed timeframe starts with `'n'`, `'t'` or `'a'`). -/
theorem not_fixed_of_head_digit (c : Char) (t : List Char)
    (hc : c.isDigit = true) : (c :: t) ∉ FIXED_TIMEFRAMES := by
  intro hmem
  simp only [FIXED_TIMEFRAMES, List.mem_cons, List.not_mem_nil, or_false] at hmem
  rcases hmem with h|h|h|h|h|h|h|h|h <;> simp_all [String.toList]

/-- `splitOnChar` on a separator-free string. -/
theorem splitOnChar_no_sep (sep : Char) (r : List Char) (hr : sep ∉ r) :
    splitOnChar sep r = [r] := by
  induction r with
  | nil => rfl
  | cons c t ih =>
    have hcs : ¬(c = sep) := fun h => hr (h ▸ List.mem_cons_self c t)
    have ht : sep ∉ t := fun h => hr (List.mem_cons_of_mem c h)
    simp only [splitOnChar, if_neg hcs, ih ht]

/-- `splitOnChar` around a single separator. -/
theorem splitOnChar_append_sep (sep : Char) (l r : List Char)
    (hl : sep ∉ l) (hr : sep ∉ r) :
    splitOnChar sep (l ++ sep :: r) = [l, r] := by
  induction l with
  | nil => simp [splitOnChar, splitOnChar_no_sep sep r hr]
  | cons c t ih =>
    have hcs : ¬(c = sep) := fun h => hl (h ▸ List.mem_cons_self c t)
    have ht : sep ∉ t := fun h => hl (List.mem_cons_of_mem c h)
    simp only [List.cons_append, splitOnChar, if_neg hcs, List.append_eq]
    rw [ih ht]

/-- `splitFirst` finds nothing when the pattern's first character is
absent. -/
theorem splitFirst_none (p : Char) (ps l : List Char) (h : p ∉ l) :
    splitFirst (p :: ps) l = none := by
  induction l with
  | nil => rfl
  | cons c t ih =>
    have hpc : ¬(p = c) := fun hh => h (hh ▸ List.mem_cons_self c t)
    have hnp : (p :: ps).isPrefixOf (c :: t) = false := by
      simp [List.isPrefixOf, beq_eq_false_iff_ne, hpc]
    simp only [splitFirst, hnp, Bool.false_eq_true, if_false,
      ih (fun hh => h (List.mem_cons_of_mem c hh))]
    rfl

/-- `replaceFirst` is the identity when the pattern's first character is
absent. -/
theorem replaceFirst_no_occur (l : List Char) (p : Char) (ps rep : List Char)
    (h : p ∉ l) : replaceFirst l (p :: ps) rep = l := by
  simp [replaceFirst, splitFirst_none p ps l h]

/-- `dropWhile` runs through a satisfying block and stops at the first
failing element. -/
theorem dropWhile_append_stop {α : Type} (p : α → Bool) (l : List α) (a : α)
    (r : List α) (hl : ∀ x ∈ l, p x = true) (ha : p a = false) :
    (l ++ a :: r).dropWhile p = a :: r := by
  induction l with
  | nil => simp [List.dropWhile_cons, ha]
  | cons c t ih =>
    have hc : p c = true := hl c (by simp)
    simp only [List.cons_append, List.dropWhile_cons, hc, if_true]
    exact ih (fun x hx => hl x (by simp [hx]))

/-- `OFFSET_PATTERN` accepts a digit run followed by a unit letter, with
or without the hyphen. -/
theorem isValidFormat_digits_unit (ds : List Char) (u : Char) (hne : ds ≠ [])
    (hd : ∀ c ∈ ds, c.isDigit = true) (hu : isUnitChar u = true) :
    isValidFormat (ds ++ [u]) = true ∧ isValidFormat (ds ++ ['-', u]) = true := by
  obtain ⟨c, t, hrev⟩ : ∃ c t, ds.reverse = c :: t := by
    cases hr : ds.reverse with
    | nil => exact absurd (by simpa using congrArg List.reverse hr) hne
    | cons c t => exact ⟨c, t, rfl⟩
  have hcd : c.isDigit = true := hd c (by
    have : c ∈ ds.reverse := hrev ▸ List.mem_cons_self c t
    simpa using this)
  have hcdash : ¬(c = '-') := fun hh => by simp [hh] at hcd
  constructor
  · simp only [isValidFormat, List.reverse_append, List.reverse_cons,
      List.reverse_nil, List.nil_append, List.cons_append, hrev, hu,
      Bool.true_and]
    simp [if_neg hcdash, hcd]
  · simp only [isValidFormat, List.reverse_append, List.reverse_cons,
      List.reverse_nil, List.nil_append, List.cons_append, hrev, hu,
      Bool.true_and]
    simp [hrev, hcd]

/-- `extractTimeParts` on a digit run followed by a unit letter, with or
without the hyphen: same count, same unit group. -/
theorem extractTimeParts_digits (ds : List Char) (u : Char) (hne : ds ≠ [])
    (hd : ∀ c ∈ ds, c.isDigit = true) (hu : isUnitChar u = true)
    (hud : u.isDigit = false) (hudash : ¬(u = '-')) :
    extractTimeParts (ds ++ [u]) = some (parseDigits ds, [u]) ∧
    extractTimeParts (ds ++ ['-', u]) = some (parseDigits ds, [u]) := by
  obtain ⟨c, t, rfl⟩ : ∃ c t, ds = c :: t := by
    cases ds with
    | nil => exact absurd rfl hne
    | cons c t => exact ⟨c, t, rfl⟩
  have hc : c.isDigit = true := hd c (by simp)
  have htake1 : ((c :: t) ++ [u]).takeWhile Char.isDigit = c :: t :=
    takeWhile_append_stop _ _ _ _ hd hud
  have hdrop1 : ((c :: t) ++ [u]).dropWhile Char.isDigit = [u] :=
    dropWhile_append_stop _ _ _ _ hd hud
  have htake2 : ((c :: t) ++ ['-', u]).takeWhile Char.isDigit = c :: t :=
    takeWhile_append_stop _ _ _ _ hd (by simp)
  have hdrop2 : ((c :: t) ++ ['-', u]).dropWhile Char.isDigit = '-' :: [u] :=
    dropWhile_append_stop _ _ _ _ hd (by simp)
  have hunit : [u].takeWhile isUnitChar = [u] := by simp [List.takeWhile_cons, hu]
  constructor
  · show extractTimeParts (c :: (t ++ [u])) = _
    rw [extractTimeParts]
    simp only [hc, if_true]
    rw [show c :: (t ++ [u]) = (c :: t) ++ [u] from rfl] at *
    simp only [htake1, hdrop1, List.headD_cons, if_neg hudash, hunit]
    simp [hu]
  · show extractTimeParts (c :: (t ++ ['-', u])) = _
    rw [extractTimeParts]
    simp only [hc, if_true]
    rw [show c :: (t ++ ['-', u]) = (c :: t) ++ ['-', u] from rfl] at *
    simp only [htake2, hdrop2, List.headD_cons, if_pos rfl, List.tail_cons, hunit]
    simp [hu]

/-- A string whose last character is not a digit never matches
`VALID_DATE_PATTERN` (both alternatives end in a digit). -/
theorem isValidDate_append_last (l : List Char) (a : Char)
    (ha : a.isDigit = false) : isValidDate (l ++ [a]) = false := by
  cases h : isValidDate (l ++ [a]) with
  | false => rfl
  | true =>
    obtain ⟨-, -, hlast⟩ := isValidDate_elim _ h
    rw [List.getLastD_concat] at hlast
    exact absurd hlast (by simp [ha])

/-- Routing inside `convertTimeframe`: a date-like first part and an
offset-like (but not date-like) second part reach
`processDateWithOffset`. -/
theorem convertTimeframe_offset_route (now : TDateTime) (d off : List Char)
    (hd : isValidDate d = true)
    (hoff : ∀ c ∈ off, c.isDigit = true ∨ c = '-' ∨ c = 'H')
    (hoffdate : isValidDate off = false)
    (hofffmt : isValidFormat off = true) :
    convertTimeframe now (d ++ ' ' :: off) false = processDateWithOffset d off := by
  obtain ⟨hchars, ⟨c, t, hdt, hcdig⟩, -⟩ := isValidDate_elim d hd
  have hn : 'n' ∉ d ++ ' ' :: off := by
    intro hm
    rcases List.mem_append.1 hm with hm | hm
    · rcases hchars _ hm with h|h|h <;> exact absurd h (by decide)
    · rcases List.mem_cons.1 hm with h|h
      · exact absurd h (by decide)
      · rcases hoff _ h with h|h|h <;> exact absurd h (by decide)
  have htd : 't' ∉ d ++ ' ' :: off := by
    intro hm
    rcases List.mem_append.1 hm with hm | hm
    · rcases hchars _ hm with h|h|h <;> exact absurd h (by decide)
    · rcases List.mem_cons.1 hm with h|h
      · exact absurd h (by decide)
      · rcases hoff _ h with h|h|h <;> exact absurd h (by decide)
  have hsp_d : ' ' ∉ d := fun hm => by
    rcases hchars _ hm with h|h|h <;> exact absurd h (by decide)
  have hsp_o : ' ' ∉ off := fun hm => by
    rcases hoff _ hm with h|h|h <;> exact absurd h (by decide)
  have hnotfix : (d ++ ' ' :: off) ∉ FIXED_TIMEFRAMES := by
    rw [hdt, List.cons_append]
    exact not_fixed_of_head_digit c _ hcdig
  simp only [convertTimeframe]
  rw [if_neg (fun hh => hnotfix hh.1)]
  rw [if_neg (fun hh => by simpa using hh.1)]
  have hrw1 : replaceFirst (d ++ ' ' :: off) "now".toList (formatDateT now) =
      d ++ ' ' :: off := replaceFirst_no_occur _ 'n' "ow".toList _ hn
  have hrw2 : replaceFirst (d ++ ' ' :: off) "today".toList (formatDate now) =
      d ++ ' ' :: off := replaceFirst_no_occur _ 't' "oday".toList _ htd
  rw [hrw1, hrw2]
  rw [splitOnChar_append_sep ' ' d off hsp_d hsp_o]
  simp [hd, hoffdate, hofffmt]

/-- C10: the offset pattern is end-anchored only and its hyphen is
optional, so a second part `"<digits>H"` (no hyphen) or even one with a
garbage prefix such as `"xx5-H"` is still classified as offset-like and
yields the same range as the well-formed `"<digits>-H"` instead of
failing. -/
theorem offsetPattern_lenient_spec :
    (∀ (now : TDateTime) (d ds : List Char),
      isValidDate d = true → ds ≠ [] → (∀ c ∈ ds, c.isDigit = true) →
      (convertTimeframe now (d ++ ' ' :: (ds ++ ['H'])) false
          = processDateWithOffset d (ds ++ ['H'])
        ∧ convertTimeframe now (d ++ ' ' :: (ds ++ ['-', 'H'])) false
          = processDateWithOffset d (ds ++ ['-', 'H']))
      ∧ isValidFormat (ds ++ ['H']) = true
      ∧ extractTimeParts (ds ++ ['H']) = some (parseDigits ds, ['H'])
      ∧ (∀ r, processDateWithOffset d (ds ++ ['H']) = .ok r ↔
          processDateWithOffset d (ds ++ ['-', 'H']) = .ok r))
    ∧ (∀ now : TDateTime,
        convertTimeframe now "2024-09-12 xx5-H".toList false =
          convertTimeframe now "2024-09-12 5-H".toList false
        ∧ convertTimeframe now "2024-09-12 xx5-H".toList false =
          .ok "2024-09-11 2024-09-12".toList) := by
  constructor
  · intro now d ds hd hne hdigits
    have hfmt := isValidFormat_digits_unit ds 'H' hne hdigits (by decide)
    have hext := extractTimeParts_digits ds 'H' hne hdigits (by decide)
      (by decide) (by decide)
    have hchars1 : ∀ c ∈ ds ++ ['H'], c.isDigit = true ∨ c = '-' ∨ c = 'H' := by
      intro c hc
      rcases List.mem_append.1 hc with h | h
      · exact Or.inl (hdigits _ h)
      · simp only [List.mem_singleton] at h
        exact Or.inr (Or.inr h)
    have hchars2 : ∀ c ∈ ds ++ ['-', 'H'], c.isDigit = true ∨ c = '-' ∨ c = 'H' := by
      intro c hc
      rcases List.mem_append.1 hc with h | h
      · exact Or.inl (hdigits _ h)
      · simp only [List.mem_cons, List.mem_singleton, List.not_mem_nil,
          or_false] at h
        rcases h with rfl | rfl
        · exact Or.inr (Or.inl rfl)
        · exact Or.inr (Or.inr rfl)
    have hvd1 : isValidDate (ds ++ ['H']) = false :=
      isValidDate_append_last ds 'H' (by decide)
    have hvd2 : isValidDate (ds ++ ['-', 'H']) = false := by
      have : ds ++ ['-', 'H'] = (ds ++ ['-']) ++ ['H'] := by simp
      rw [this]
      exact isValidDate_append_last (ds ++ ['-']) 'H' (by decide)
    refine ⟨⟨?_, ?_⟩, hfmt.1, hext.1, ?_⟩
    · exact convertTimeframe_offset_route now d _ hd hchars1 hvd1 hfmt.1
    · exact convertTimeframe_offset_route now d _ hd hchars2 hvd2 hfmt.2
    · intro r
      cases hdec : decodeTrendDatetime d with
      | none => simp [processDateWithOffset, hdec]
      | some dt =>
        simp only [processDateWithOffset, hdec, hext.1, hext.2]
        split_ifs <;> simp_all
  · intro now
    exact ⟨rfl, rfl⟩

/-! #### C3: list alignment by doubling -/

theorem doubleUntilGo_zero {α : Type} (maxLen : Nat) (l : List α) :
    doubleUntilGo maxLen 0 l = l := rfl

theorem doubleUntilGo_succ {α : Type} (maxLen fuel : Nat) (l : List α) :
    doubleUntilGo maxLen (fuel + 1) l =
      if maxLen ≤ l.length then l else doubleUntilGo maxLen fuel (l ++ l) := rfl

/-- When the target is the length times a power of two, the doubling loop
lands exactly on the target. -/
theorem doubleUntilGo_length_pow {α : Type} (maxLen : Nat) :
    ∀ (k fuel : Nat) (l : List α), l ≠ [] → k ≤ fuel →
      maxLen = l.length * 2 ^ k → (doubleUntilGo maxLen fuel l).length = maxLen := by
  intro k
  induction k with
  | zero =>
    intro fuel l hne _ hM
    simp only [pow_zero, Nat.mul_one] at hM
    cases fuel with
    | zero => simp [doubleUntilGo_zero, hM]
    | succ f => rw [doubleUntilGo_succ, if_pos (le_of_eq hM)]; exact hM.symm
  | succ k ih =>
    intro fuel l hne hk hM
    have hlen : 0 < l.length := List.length_pos.2 hne
    have hlt : l.length < maxLen := by
      have h2 : 2 ≤ 2 ^ (k + 1) := by
        calc 2 = 2 ^ 1 := rfl
        _ ≤ 2 ^ (k + 1) := Nat.pow_le_pow_right (by omega) (by omega)
      calc l.length < l.length * 2 := by omega
      _ ≤ l.length * 2 ^ (k + 1) := Nat.mul_le_mul_left _ h2
      _ = maxLen := hM.symm
    cases fuel with
    | zero => omega
    | succ f =>
      rw [doubleUntilGo_succ, if_neg (by omega)]
      refine ih f (l ++ l) (by simp [hne]) (by omega) ?_
      simp only [List.length_append]
      rw [hM, pow_succ]
      ring

theorem doubleUntil_length_pow {α : Type} (maxLen k : Nat) (l : List α)
    (hne : l ≠ []) (hM : maxLen = l.length * 2 ^ k) :
    (doubleUntil maxLen l).length = maxLen := by
  have hlen : 0 < l.length := List.length_pos.2 hne
  have hkM : k ≤ maxLen := by
    have h1 : 2 ^ k ≤ maxLen := by
      calc 2 ^ k = 1 * 2 ^ k := by omega
      _ ≤ l.length * 2 ^ k := Nat.mul_le_mul_right _ hlen
      _ = maxLen := hM.symm
    have h2 : k < 2 ^ k := Nat.lt_two_pow k
    omega
  exact doubleUntilGo_length_pow maxLen k maxLen l hne hkM hM

theorem idxRange_get (i r : Nat) (j : Fin (idxRange i r).length) :
    (idxRange i r).get j = i + j.val := by
  induction r generalizing i with
  | zero => exact absurd j.isLt (by simp)
  | succ r ih =>
    rcases j with ⟨jv, hj⟩
    cases jv with
    | zero => rfl
    | succ jv =>
      have hj2 : jv < (idxRange (i + 1) r).length := by
        simp only [idxRange_length] at hj ⊢
        omega
      have hstep : (idxRange i (r + 1)).get ⟨jv + 1, hj⟩ =
          (idxRange (i + 1) r).get ⟨jv, hj2⟩ := rfl
      rw [hstep, ih]
      show i + 1 + jv = i + (jv + 1)
      omega

/-- C3: with positive input lengths and `M` the maximum length, the
alignment fails with the ambiguous-sizes error (reporting all three
lengths) exactly when some length does not evenly divide `M`; otherwise
the items are built positionally from the repeatedly-doubled lists, the
result has exactly `M` items whenever `M/len` is a power of two for every
input, and for other divisor ratios the result can be longer than `M`
(witnessed concretely by lengths `(3, 9, 1)`, which yield 12 items). -/
theorem encodeItems_spec :
    (∀ ks ts gs : List String, 0 < ks.length → 0 < ts.length → 0 < gs.length →
      (¬(ks.length ∣ (ks.length.max ts.length).max gs.length ∧
          ts.length ∣ (ks.length.max ts.length).max gs.length ∧
          gs.length ∣ (ks.length.max ts.length).max gs.length) →
        encodeItems ks ts gs =
          .error (.ambiguous [ks.length, ts.length, gs.length]))
      ∧ ((ks.length ∣ (ks.length.max ts.length).max gs.length ∧
          ts.length ∣ (ks.length.max ts.length).max gs.length ∧
          gs.length ∣ (ks.length.max ts.length).max gs.length) →
        ∃ items, encodeItems ks ts gs = .ok items ∧
          (((∃ k, (ks.length.max ts.length).max gs.length = ks.length * 2 ^ k) ∧
            (∃ k, (ks.length.max ts.length).max gs.length = ts.length * 2 ^ k) ∧
            (∃ k, (ks.length.max ts.length).max gs.length = gs.length * 2 ^ k)) →
            items.length = (ks.length.max ts.length).max gs.length) ∧
          ∀ j : Fin items.length, items.get j =
            ⟨(doubleUntil ((ks.length.max ts.length).max gs.length) ks).getD j.val "",
             (doubleUntil ((ks.length.max ts.length).max gs.length) ts).get? j.val,
             (doubleUntil ((ks.length.max ts.length).max gs.length) gs).get? j.val⟩))
    ∧ ((encodeItems ["a", "b", "c"]
          ["t1", "t2", "t3", "t4", "t5", "t6", "t7", "t8", "t9"] ["g"]).map
        List.length = .ok 12 ∧ 9 < 12) := by
  constructor
  · intro ks ts gs hk ht hg
    have hfold : [ks.length, ts.length, gs.length].foldl Nat.max 0 =
        (ks.length.max ts.length).max gs.length := by
      simp [List.foldl, Nat.zero_max]
    constructor
    · intro hndvd
      have hall : ([ks.length, ts.length, gs.length].all
          (fun len => len ≠ 0 &&
            [ks.length, ts.length, gs.length].foldl Nat.max 0 % len = 0)) = false := by
        cases hc : ([ks.length, ts.length, gs.length].all
            (fun len => len ≠ 0 &&
              [ks.length, ts.length, gs.length].foldl Nat.max 0 % len = 0)) with
        | false => rfl
        | true =>
          exfalso
          simp only [List.all_cons, List.all_nil, Bool.and_eq_true,
            decide_eq_true_eq, Bool.and_true, hfold] at hc
          exact hndvd ⟨Nat.dvd_iff_mod_eq_zero.2 hc.1.2,
            Nat.dvd_iff_mod_eq_zero.2 hc.2.1.2,
            Nat.dvd_iff_mod_eq_zero.2 hc.2.2.2⟩
      simp only [encodeItems, hall, Bool.false_eq_true, if_false]
    · intro hdvd
      have hall : ([ks.length, ts.length, gs.length].all
          (fun len => len ≠ 0 &&
            [ks.length, ts.length, gs.length].foldl Nat.max 0 % len = 0)) = true := by
        simp only [List.all_cons, List.all_nil, Bool.and_eq_true,
          decide_eq_true_eq, Bool.and_true, hfold]
        refine ⟨⟨by omega, Nat.dvd_iff_mod_eq_zero.1 hdvd.1⟩,
          ⟨by omega, Nat.dvd_iff_mod_eq_zero.1 hdvd.2.1⟩,
          by omega, Nat.dvd_iff_mod_eq_zero.1 hdvd.2.2⟩
      refine ⟨_, by
        simp only [hfold] at hall
        simp only [encodeItems, hfold, hall, if_true]
        rfl, ?_, ?_⟩
      · rintro ⟨⟨k, hkpow⟩, -, -⟩
        simp only [List.length_map, idxRange_length]
        exact doubleUntil_length_pow _ k ks (by
          intro hnil; rw [hnil] at hk; simp at hk) hkpow
      · intro j
        have hj := j.isLt
        simp only [List.length_map, idxRange_length] at hj
        rw [List.get_map, idxRange_get]
        simp
  · exact ⟨by decide, by decide⟩

theorem encodeItems_spec_witness :
    (0 < (["a"] : List String).length ∧
      (["a"] : List String).length ∣
        (((["a"] : List String).length.max (["b"] : List String).length).max
          (["c"] : List String).length)) ∧
    ∃ items, encodeItems ["a"] ["b"] ["c"] = .ok items ∧ items.length = 1 := by
  obtain ⟨items, h1, h2, -⟩ :=
    ((encodeItems_spec.1 ["a"] ["b"] ["c"] (by decide) (by decide) (by decide)).2
      ⟨⟨1, by decide⟩, ⟨1, by decide⟩, ⟨1, by decide⟩⟩)
  exact ⟨⟨by decide, ⟨1, by decide⟩⟩, items, h1,
    h2 ⟨⟨0, by decide⟩, ⟨0, by decide⟩, ⟨0, by decide⟩⟩⟩

/-! #### C4: retry/backoff -/

/-- The status codes observed (responses delivered) by attempts
`i, …, i+r-1`. -/
def obsCodesFrom (o : Nat → AttemptResult) (i r : Nat) : List Nat :=
  (idxRange i r).filterMap (fun k => match o k with
    | .resp s => some s
    | .err _ => none)

/-- The backoff sleeps the claim predicts for attempts `i, …, i+r-1`:
`5 · 2^k` seconds at each attempt `k` that observes a 429 or 302. -/
def backoffFrom (o : Nat → AttemptResult) (i r : Nat) : List (Nat × Nat) :=
  (idxRange i r).filterMap (fun k => match o k with
    | .resp s => if s = 429 ∨ s = 302 then some (k, 5 * 2 ^ k) else none
    | .err _ => none)

theorem getLoop_exhaust (m : Nat) (o : Nat → AttemptResult) :
    ∀ (r i : Nat) (codes : List Nat) (sleeps : List (Nat × Nat)),
      i + r = m →
      (∀ k, i ≤ k → k < m → isOk200 (o k) = false) →
      getLoop m o r i codes sleeps =
        (.exhausted, codes ++ obsCodesFrom o i r, sleeps ++ backoffFrom o i r) := by
  intro r
  induction r with
  | zero =>
    intro i codes sleeps _ _
    simp [getLoop, obsCodesFrom, backoffFrom]
  | succ r ih =>
    intro i codes sleeps him h200
    have hi2 : (i + 1) + r = m := by omega
    cases ho : o i with
    | resp s =>
      have hs : ¬(s = 200) := by
        have := h200 i (le_refl i) (by omega)
        rw [ho] at this
        simpa [isOk200] using this
      simp only [getLoop, ho, if_neg hs]
      rw [ih (i + 1) (codes ++ [s]) _ hi2
        (fun k hk1 hk2 => h200 k (by omega) hk2)]
      have hexp : m - (r + 1) = i := by omega
      have hobs : obsCodesFrom o i (r + 1) = s :: obsCodesFrom o (i + 1) r := by
        simp [obsCodesFrom, idxRange_succ, List.filterMap_cons, ho]
      have hback : backoffFrom o i (r + 1) =
          (if s = 429 ∨ s = 302 then [(i, 5 * 2 ^ i)] else []) ++
            backoffFrom o (i + 1) r := by
        by_cases h43 : s = 429 ∨ s = 302 <;>
          simp [backoffFrom, idxRange_succ, List.filterMap_cons, ho, h43]
      rw [hobs, hback, hexp]
      by_cases h43 : s = 429 ∨ s = 302 <;> simp [h43, Nat.mul_comm]
    | err e =>
      simp only [getLoop, ho]
      rw [ih (i + 1) codes sleeps hi2 (fun k hk1 hk2 => h200 k (by omega) hk2)]
      have hobs : obsCodesFrom o i (r + 1) = obsCodesFrom o (i + 1) r := by
        simp [obsCodesFrom, idxRange_succ, List.filterMap_cons, ho]
      have hback : backoffFrom o i (r + 1) = backoffFrom o (i + 1) r := by
        simp [backoffFrom, idxRange_succ, List.filterMap_cons, ho]
      rw [hobs, hback]

theorem getLoop_success (m : Nat) (o : Nat → AttemptResult) :
    ∀ (r i : Nat) (codes : List Nat) (sleeps : List (Nat × Nat)) (j : Nat),
      i + r = m → i ≤ j → j < m →
      (∀ k, i ≤ k → k < j → isOk200 (o k) = false) →
      o j = .resp 200 →
      getLoop m o r i codes sleeps =
        (.success j, codes ++ obsCodesFrom o i (j - i) ++ [200],
         sleeps ++ backoffFrom o i (j - i)) := by
  intro r
  induction r with
  | zero => intro i codes sleeps j him hij hjm _ _; omega
  | succ r ih =>
    intro i codes sleeps j him hij hjm h200 hj
    by_cases hije : i = j
    · subst hije
      simp [getLoop, hj, obsCodesFrom, backoffFrom]
    · have hilt : i < j := by omega
      cases ho : o i with
      | resp s =>
        have hs : ¬(s = 200) := by
          have := h200 i (le_refl i) hilt
          rw [ho] at this
          simpa [isOk200] using this
        simp only [getLoop, ho, if_neg hs]
        rw [ih (i + 1) (codes ++ [s]) _ j (by omega) (by omega) hjm
          (fun k hk1 hk2 => h200 k (by omega) hk2) hj]
        have hsub : j - i = (j - (i + 1)) + 1 := by omega
        have hobs : obsCodesFrom o i (j - i) =
            s :: obsCodesFrom o (i + 1) (j - (i + 1)) := by
          rw [hsub]
          simp [obsCodesFrom, idxRange_succ, List.filterMap_cons, ho]
        have hback : backoffFrom o i (j - i) =
            (if s = 429 ∨ s = 302 then [(i, 5 * 2 ^ i)] else []) ++
              backoffFrom o (i + 1) (j - (i + 1)) := by
          rw [hsub]
          by_cases h43 : s = 429 ∨ s = 302 <;>
            simp [backoffFrom, idxRange_succ, List.filterMap_cons, ho, h43]
        have hexp : m - (r + 1) = i := by omega
        rw [hobs, hback, hexp]
        by_cases h43 : s = 429 ∨ s = 302 <;> simp [h43, Nat.mul_comm]
      | err e =>
        simp only [getLoop, ho]
        rw [ih (i + 1) codes sleeps j (by omega) (by omega) hjm
          (fun k hk1 hk2 => h200 k (by omega) hk2) hj]
        have hsub : j - i = (j - (i + 1)) + 1 := by omega
        have hobs : obsCodesFrom o i (j - i) =
            obsCodesFrom o (i + 1) (j - (i + 1)) := by
          rw [hsub]
          simp [obsCodesFrom, idxRange_succ, List.filterMap_cons, ho]
        have hback : backoffFrom o i (j - i) =
            backoffFrom o (i + 1) (j - (i + 1)) := by
          rw [hsub]
          simp [backoffFrom, idxRange_succ, List.filterMap_cons, ho]
        rw [hobs, hback]

/-- C4: when every attempt within the `maxRetries` budget observes a
non-200 outcome, `_get` fails after exactly `maxRetries` attempts
carrying the observed status codes, with the increase-your-delay
advisory exactly when 429s form a strict majority of them; every 429/302
attempt sleeps `5 · 2^(attempt index)` seconds.  When attempt `j`
(0-based) is the first to deliver a 200, the call succeeds with the same
backoff sleeps for the failed prefix — in particular a stub answering
429 for the first `maxRetries − 1` attempts and then 200 succeeds having
slept `5·2^0, 5·2^1, …` seconds. -/
theorem trendsGet_backoff_spec :
    (∀ (m : Nat) (o : Nat → AttemptResult),
      (∀ k, k < m → isOk200 (o k) = false) →
      trendsGet m o = .error (obsCodesFrom o 0 m,
        decide ((obsCodesFrom o 0 m).length < 2 * (obsCodesFrom o 0 m).count 429))
      ∧ trendsGetSleeps m o = backoffFrom o 0 m)
    ∧ (∀ (m : Nat) (o : Nat → AttemptResult) (j : Nat),
      j < m → (∀ k, k < j → isOk200 (o k) = false) → o j = .resp 200 →
      trendsGet m o = .ok j ∧ trendsGetSleeps m o = backoffFrom o 0 j) := by
  constructor
  · intro m o h200
    have h := getLoop_exhaust m o m 0 [] [] (by omega)
      (fun k _ hk => h200 k hk)
    rw [trendsGet, trendsGetSleeps, h]
    simp
  · intro m o j hjm h200 hj
    have h := getLoop_success m o m 0 [] [] j (by omega) (by omega) hjm
      (fun k _ hk => h200 k hk) hj
    rw [trendsGet, trendsGetSleeps, h]
    simp

theorem trendsGet_backoff_spec_witness :
    ((∀ k, k < 3 → isOk200 ((fun _ => AttemptResult.resp 429) k) = false) ∧
      trendsGet 3 (fun _ => .resp 429) = .error ([429, 429, 429], true) ∧
      trendsGetSleeps 3 (fun _ => .resp 429) = [(0, 5), (1, 10), (2, 20)]) ∧
    ((2 : Nat) < 3 ∧
      (∀ k, k < 2 → isOk200 ((fun k => if k < 2 then AttemptResult.resp 429
        else AttemptResult.resp 200) k) = false) ∧
      trendsGet 3 (fun k => if k < 2 then .resp 429 else .resp 200) = .ok 2 ∧
      trendsGetSleeps 3 (fun k => if k < 2 then .resp 429 else .resp 200) =
        [(0, 5), (1, 10)]) := by
  have h1 := trendsGet_backoff_spec.1 3 (fun _ => .resp 429) (by decide)
  have h2 := trendsGet_backoff_spec.2 3
    (fun k => if k < 2 then .resp 429 else .resp 200) 2 (by decide) (by decide)
    (by decide)
  exact ⟨⟨by decide, h1.1.trans (by decide), h1.2.trans (by decide)⟩,
    by decide, by decide, h2.1, h2.2.trans (by decide)⟩

/-! #### C9: cross-timeframe resolution compatibility -/

theorem foldl_pick_lt_fst {α : Type} :
    ∀ (l : List (Int × α)) (init : Int × α),
      (l.foldl (fun acc c => if c.1 < acc.1 then c else acc) init).1 =
        (l.map Prod.fst).foldl min init.1 := by
  intro l
  induction l with
  | nil => intro init; rfl
  | cons p t ih =>
    intro init
    simp only [List.foldl_cons, List.map_cons]
    rw [ih]
    congr 1
    by_cases h : p.1 < init.1 <;> simp [h, min_def] <;> omega

theorem foldl_pick_gt_fst {α : Type} :
    ∀ (l : List (Int × α)) (init : Int × α),
      (l.foldl (fun acc c => if acc.1 < c.1 then c else acc) init).1 =
        (l.map Prod.fst).foldl max init.1 := by
  intro l
  induction l with
  | nil => intro init; rfl
  | cons p t ih =>
    intro init
    simp only [List.foldl_cons, List.map_cons]
    rw [ih]
    congr 1
    by_cases h : init.1 < p.1 <;> simp [h, max_def] <;> omega

theorem foldl_pick_mem {α : Type} (f : Int × α → Int × α → Int × α)
    (hf : ∀ a b, f a b = a ∨ f a b = b) :
    ∀ (l : List (Int × α)) (init : Int × α), l.foldl f init ∈ init :: l := by
  intro l
  induction l with
  | nil => intro init; simp
  | cons p t ih =>
    intro init
    simp only [List.foldl_cons]
    rcases List.mem_cons.1 (ih (f init p)) with h | h
    · rcases hf init p with hh | hh
      · exact List.mem_cons.2 (Or.inl (h.trans hh))
      · exact List.mem_cons.2 (Or.inr (List.mem_cons.2 (Or.inl (h.trans hh))))
    · exact List.mem_cons.2 (Or.inr (List.mem_cons.2 (Or.inr h)))

theorem one_lt_dedup_iff (b0 : String) (bs : List String) :
    1 < ((b0 :: bs).dedup).length ↔ ¬(∀ b ∈ b0 :: bs, b = b0) := by
  rw [← List.card_toFinset]
  rw [Finset.one_lt_card]
  constructor
  · rintro ⟨a, ha, b, hb, hab⟩ hall
    rw [List.mem_toFinset] at ha hb
    rw [hall a ha, hall b hb] at hab
    exact hab rfl
  · intro hnall
    push_neg at hnall
    obtain ⟨b, hb, hbne⟩ := hnall
    exact ⟨b0, by simp, b, List.mem_toFinset.2 hb, fun h => hbne h.symm⟩

theorem exceptMapM_length {ε α β : Type} (f : α → Except ε β) :
    ∀ (l : List α) (r : List β), l.mapM f = .ok r → r.length = l.length := by
  intro l
  induction l with
  | nil =>
    intro r h
    rw [List.mapM_nil] at h
    simp only [pure, Except.pure] at h
    rw [← Except.ok.inj h]
    rfl
  | cons a t ih =>
    intro r h
    rw [List.mapM_cons] at h
    cases hfa : f a with
    | error e =>
      rw [hfa] at h
      exact absurd h (by simp [Bind.bind, Except.bind])
    | ok b =>
      rw [hfa] at h
      cases hmt : t.mapM f with
      | error e =>
        rw [hmt] at h
        exact absurd h (by simp [Bind.bind, Except.bind])
      | ok bs =>
        rw [hmt] at h
        simp only [Bind.bind, Except.bind, pure, Except.pure] at h
        rw [← Except.ok.inj h]
        simp [ih bs hmt]

/-- C9: with every element's resolution and duration computable, the
check fails with the full per-element (timeframe, duration, resolution)
report exactly when the buckets are not all the same; with all buckets
equal it fails with the ratio error — reporting the extreme durations
and timeframes that produced them — exactly when the maximum duration is
at least twice the minimum, and succeeds otherwise. -/
theorem checkTimeframeResolution_spec :
    (∀ (now : TDateTime) (t0 : List Char) (ts : List (List Char))
        (r0 : String × String) (rs : List (String × String))
        (d0 : Int) (ds : List Int),
      (t0 :: ts).mapM (fun tf => getResolutionAndRange now tf) = .ok (r0 :: rs) →
      (t0 :: ts).mapM (fun tf => timeframeToDuration now tf) = .ok (d0 :: ds) →
      ((¬(∀ b ∈ (r0 :: rs).map Prod.fst, b = r0.1) →
        checkTimeframeResolution now (t0 :: ts) =
          .error (.differentResolutions
            ((t0 :: ts).zip ((d0 :: ds).zip (r0 :: rs)))))
      ∧ ((∀ b ∈ (r0 :: rs).map Prod.fst, b = r0.1) →
        (2 * ds.foldl min d0 ≤ ds.foldl max d0 →
          ∃ pmin pmax : Int × List Char,
            checkTimeframeResolution now (t0 :: ts) =
              .error (.ratioTooLarge pmax.1 pmax.2 pmin.1 pmin.2) ∧
            pmin ∈ (d0 :: ds).zip (t0 :: ts) ∧
            pmax ∈ (d0 :: ds).zip (t0 :: ts) ∧
            pmin.1 = ds.foldl min d0 ∧ pmax.1 = ds.foldl max d0)
        ∧ (ds.foldl max d0 < 2 * ds.foldl min d0 →
          checkTimeframeResolution now (t0 :: ts) = .ok ()))))
    ∧ (checkTimeframeResolution nowSample ["now 1-H".toList, "now 1-H".toList] =
        .ok ()
      ∧ (∃ rep, checkTimeframeResolution nowSample
          ["now 1-H".toList, "now 24-H".toList] =
          .error (.differentResolutions rep))
      ∧ (∃ a b c d, checkTimeframeResolution nowSample
          ["now 1-H".toList, "now 3-H".toList] =
          .error (.ratioTooLarge a b c d))) := by
  constructor
  · intro now t0 ts r0 rs d0 ds hres hdur
    have hlen : ds.length = ts.length := by
      have := exceptMapM_length _ _ _ hdur
      simpa using this
    have hmapshape : (r0 :: rs).map Prod.fst = r0.1 :: rs.map Prod.fst := by simp
    constructor
    · intro hnall
      have hcond : 1 < (((r0 :: rs).map Prod.fst).dedup).length := by
        rw [hmapshape, one_lt_dedup_iff]
        intro hall
        exact hnall (fun b hb => hall b (by rwa [hmapshape] at hb))
      simp only [checkTimeframeResolution, hres, hdur]
      rw [if_pos hcond]
    · intro hall
      have hcond : ¬(1 < (((r0 :: rs).map Prod.fst).dedup).length) := by
        rw [hmapshape, one_lt_dedup_iff]
        push_neg
        intro b hb
        exact hall b (by rwa [hmapshape])
      have hmapfst : ((d0 :: ds).zip (t0 :: ts)).map Prod.fst = d0 :: ds :=
        List.map_fst_zip _ _ (by simp [hlen])
      have hminval : (((d0 :: ds).zip (t0 :: ts)).foldl
          (fun acc c => if c.1 < acc.1 then c else acc) (d0, t0)).1 =
            ds.foldl min d0 := by
        rw [foldl_pick_lt_fst, hmapfst]
        simp
      have hmaxval : (((d0 :: ds).zip (t0 :: ts)).foldl
          (fun acc c => if acc.1 < c.1 then c else acc) (d0, t0)).1 =
            ds.foldl max d0 := by
        rw [foldl_pick_gt_fst, hmapfst]
        simp
      have hminmem : (((d0 :: ds).zip (t0 :: ts)).foldl
          (fun acc c => if c.1 < acc.1 then c else acc) (d0, t0)) ∈
            (d0 :: ds).zip (t0 :: ts) := by
        have hmem := foldl_pick_mem
          (fun acc c => if c.1 < acc.1 then c else acc)
          (fun a b => by by_cases h : b.1 < a.1 <;> simp [h])
          ((d0 :: ds).zip (t0 :: ts)) (d0, t0)
        rcases List.mem_cons.1 hmem with h | h
        · rw [h]
          simp [List.zip_cons_cons]
        · exact h
      have hmaxmem : (((d0 :: ds).zip (t0 :: ts)).foldl
          (fun acc c => if acc.1 < c.1 then c else acc) (d0, t0)) ∈
            (d0 :: ds).zip (t0 :: ts) := by
        have hmem := foldl_pick_mem
          (fun acc c => if acc.1 < c.1 then c else acc)
          (fun a b => by by_cases h : a.1 < b.1 <;> simp [h])
          ((d0 :: ds).zip (t0 :: ts)) (d0, t0)
        rcases List.mem_cons.1 hmem with h | h
        · rw [h]
          simp [List.zip_cons_cons]
        · exact h
      constructor
      · intro hratio
        refine ⟨_, _, ?_, hminmem, hmaxmem, hminval, hmaxval⟩
        simp only [checkTimeframeResolution, hres, hdur]
        rw [if_neg hcond]
        rw [if_pos (by rw [hminval, hmaxval]; omega)]
      · intro hlt
        simp only [checkTimeframeResolution, hres, hdur]
        rw [if_neg hcond]
        rw [if_neg (by rw [hminval, hmaxval]; omega)]
  · refine ⟨by decide, ⟨[("now 1-H".toList, 1, ("1 minute", "delta < 5 hours")),
      ("now 24-H".toList, 24,
        ("8 minutes", "5 hours <= delta < 36 hours"))], by decide⟩,
      3, "now 3-H".toList, 1, "now 1-H".toList, by decide⟩

theorem checkTimeframeResolution_spec_witness :
    ((["now 1-H".toList, "now 3-H".toList] : List (List Char)).mapM
        (fun tf => getResolutionAndRange nowSample tf) =
      .ok [("1 minute", "delta < 5 hours"), ("1 minute", "delta < 5 hours")] ∧
      (["now 1-H".toList, "now 3-H".toList] : List (List Char)).mapM
        (fun tf => timeframeToDuration nowSample tf) = .ok [1, 3] ∧
      (∀ b ∈ ([("1 minute", "delta < 5 hours"),
        ("1 minute", "delta < 5 hours")] : List (String × String)).map Prod.fst,
        b = "1 minute") ∧
      2 * ([3] : List Int).foldl min 1 ≤ ([3] : List Int).foldl max 1) ∧
    (∃ pmin pmax : Int × List Char,
      checkTimeframeResolution nowSample ["now 1-H".toList, "now 3-H".toList] =
        .error (.ratioTooLarge pmax.1 pmax.2 pmin.1 pmin.2) ∧
      pmin ∈ (([1, 3] : List Int)).zip ["now 1-H".toList, "now 3-H".toList] ∧
      pmax ∈ (([1, 3] : List Int)).zip ["now 1-H".toList, "now 3-H".toList] ∧
      pmin.1 = ([3] : List Int).foldl min 1 ∧
      pmax.1 = ([3] : List Int).foldl max 1) := by
  have h := (checkTimeframeResolution_spec.1 nowSample "now 1-H".toList
    ["now 3-H".toList] ("1 minute", "delta < 5 hours")
    [("1 minute", "delta < 5 hours")] 1 [3] (by decide) (by decide)).2
    (by decide)
  exact ⟨⟨by decide, by decide, by decide, by decide⟩, h.1 (by decide)⟩

/-! #### C5: throttle spacing -/

/-- Reachable shapes of the `lastRequestTimes` set: one or two (distinct
or not, here ordered) tracked timestamps.  The initial fill `{0, 1}` has
this shape, and `throttleStep` preserves it. -/
def StInv (s : List Nat) : Prop :=
  (∃ x, s = [x]) ∨ (∃ x y, s = [x, y] ∧ x ≤ y)

theorem throttleStep_facts (d : Nat) (s : List Nat) (a : Nat)
    (hinv : StInv s) (hbound : ∀ x ∈ s, x ≤ a) :
    (a ≤ (throttleStep d s a).1 ∧ jsMin s + d * 1000 ≤ (throttleStep d s a).1)
    ∧ StInv (throttleStep d s a).2
    ∧ ((throttleStep d s a).2).getLastD 0 = (throttleStep d s a).1
    ∧ (∀ x ∈ (throttleStep d s a).2, x ≤ (throttleStep d s a).1)
    ∧ s.getLastD 0 ≤ jsMin (throttleStep d s a).2
    ∧ (throttleStep d s a).1 ∈ (throttleStep d s a).2 := by
  rcases hinv with ⟨x, rfl⟩ | ⟨x, y, rfl, hxy⟩
  · have hxa : x ≤ a := hbound x (by simp)
    have hstep : throttleStep d [x] a =
        (a + (d * 1000 - (a - x)), [a + (d * 1000 - (a - x))]) := by
      simp [throttleStep, jsMin]
    rw [hstep]
    have hmin1 : jsMin [x] = x := rfl
    have hmin2 : jsMin [a + (d * 1000 - (a - x))] = a + (d * 1000 - (a - x)) := rfl
    refine ⟨⟨by omega, by rw [hmin1]; omega⟩, Or.inl ⟨_, rfl⟩, rfl, by simp, ?_, by simp⟩
    show x ≤ jsMin [a + (d * 1000 - (a - x))]
    rw [hmin2]
    omega
  · have hxa : x ≤ a := hbound x (by simp)
    have hya : y ≤ a := hbound y (by simp)
    have hmin : jsMin [x, y] = x := by
      simp [jsMin, Nat.min_eq_left hxy]
    by_cases hyx : y = x
    · subst hyx
      have hstep : throttleStep d [y, y] a =
          (a + (d * 1000 - (a - y)), [a + (d * 1000 - (a - y))]) := by
        simp [throttleStep, jsMin]
      rw [hstep]
      have hminyy : jsMin [y, y] = y := by simp [jsMin]
      have hmin2 : jsMin [a + (d * 1000 - (a - y))] = a + (d * 1000 - (a - y)) := rfl
      refine ⟨⟨by omega, by rw [hminyy]; omega⟩, Or.inl ⟨_, rfl⟩, rfl, by simp, ?_, by simp⟩
      show y ≤ jsMin [a + (d * 1000 - (a - y))]
      rw [hmin2]
      omega
    · have hfil : List.filter (fun z => z ≠ x) [x, y] = [y] := by
        simp [List.filter, hyx]
      by_cases hty : a + (d * 1000 - (a - x)) = y
      · have hstep : throttleStep d [x, y] a = (a + (d * 1000 - (a - x)), [y]) := by
          simp only [throttleStep, hmin, hfil]
          rw [if_pos (by rw [hty]; exact List.mem_singleton.2 rfl)]
        rw [hstep]
        have hminy : jsMin [y] = y := rfl
        refine ⟨⟨by omega, by rw [hmin]; omega⟩, Or.inl ⟨_, rfl⟩, ?_, ?_, ?_, ?_⟩
        · simpa using hty.symm
        · intro z hz
          simp only [List.mem_singleton] at hz
          omega
        · show y ≤ jsMin [y]
          rw [hminy]
        · simp [hty]
      · have hstep : throttleStep d [x, y] a =
            (a + (d * 1000 - (a - x)), [y, a + (d * 1000 - (a - x))]) := by
          simp only [throttleStep, hmin, hfil]
          rw [if_neg (by simpa using hty)]
          rfl
        rw [hstep]
        have hminyt : jsMin [y, a + (d * 1000 - (a - x))] =
            Nat.min y (a + (d * 1000 - (a - x))) := by
          simp [jsMin]
        refine ⟨⟨by omega, by rw [hmin]; omega⟩, Or.inr ⟨y, _, rfl, by omega⟩,
          rfl, ?_, ?_, by simp⟩
        · intro z hz
          simp only [List.mem_cons, List.mem_singleton, List.not_mem_nil,
            or_false] at hz
          rcases hz with rfl | rfl
          · omega
          · omega
        · show y ≤ jsMin [y, a + (d * 1000 - (a - x))]
          rw [hminyt]
          exact le_min (le_refl y) (by omega)

theorem throttleTimes_spec (d : Nat) :
    ∀ (arrivals : List Nat) (s : List Nat),
      StInv s → chainOk d s arrivals = true →
      ((1 ≤ (throttleTimes d s arrivals).length →
          jsMin s + d * 1000 ≤ (throttleTimes d s arrivals).getD 0 0
        ∧ ∀ x ∈ s, x ≤ (throttleTimes d s arrivals).getD 0 0)
      ∧ (2 ≤ (throttleTimes d s arrivals).length →
          s.getLastD 0 + d * 1000 ≤ (throttleTimes d s arrivals).getD 1 0)
      ∧ (∀ i, i + 1 < (throttleTimes d s arrivals).length →
          (throttleTimes d s arrivals).getD i 0 ≤
            (throttleTimes d s arrivals).getD (i + 1) 0)
      ∧ (∀ i, i + 2 < (throttleTimes d s arrivals).length →
          (throttleTimes d s arrivals).getD i 0 + d * 1000 ≤
            (throttleTimes d s arrivals).getD (i + 2) 0)) := by
  intro arrivals
  induction arrivals with
  | nil =>
    intro s _ _
    refine ⟨by simp [throttleTimes], by simp [throttleTimes], ?_, ?_⟩ <;>
      intro i hi <;> simp [throttleTimes] at hi
  | cons a as ih =>
    intro s hinv hchain
    have hchain' : (s.all (fun x => x ≤ a)) = true ∧
        chainOk d (throttleStep d s a).2 as = true := by
      simpa [chainOk, Bool.and_eq_true] using hchain
    have hbound : ∀ x ∈ s, x ≤ a := by
      intro x hx
      have := hchain'.1
      rw [List.all_eq_true] at this
      simpa using this x hx
    obtain ⟨⟨hta, htm⟩, hinv', hlast', hbound', hminlast, htmem⟩ :=
      throttleStep_facts d s a hinv hbound
    obtain ⟨ihH, ihK, ihG1, ihG2⟩ := ih (throttleStep d s a).2 hinv' hchain'.2
    have hts : throttleTimes d s (a :: as) =
        (throttleStep d s a).1 :: throttleTimes d (throttleStep d s a).2 as := by
      simp [throttleTimes]
    rw [hts]
    refine ⟨?_, ?_, ?_, ?_⟩
    · intro _
      exact ⟨by simpa using htm, fun x hx => by
        simpa using le_trans (hbound x hx) hta⟩
    · intro hlen2
      simp only [List.length_cons] at hlen2
      have h1 := (ihH (by omega)).1
      simp only [List.getD_cons_succ]
      calc s.getLastD 0 + d * 1000 ≤ jsMin (throttleStep d s a).2 + d * 1000 := by
            omega
        _ ≤ _ := h1
    · intro i hi
      simp only [List.length_cons] at hi
      cases i with
      | zero =>
        simp only [List.getD_cons_zero, List.getD_cons_succ]
        exact (ihH (by omega)).2 (throttleStep d s a).1 htmem
      | succ i =>
        simp only [List.getD_cons_succ]
        exact ihG1 i (by omega)
    · intro i hi
      simp only [List.length_cons] at hi
      cases i with
      | zero =>
        simp only [List.getD_cons_zero, List.getD_cons_succ]
        have := ihK (by omega)
        rw [hlast'] at this
        exact this
      | succ i =>
        simp only [List.getD_cons_succ]
        exact ihG2 i (by omega)

/-- C5 (amended): with the initial slot fill `{0, 1}` and any physically
consistent arrival schedule, dispatch timestamps are monotone and every
pair of dispatch timestamps two apart is at least `requestDelay` (ms)
apart — so consecutive dispatches are at least `requestDelay/2` apart
*on average*; an individual consecutive pair can be closer than
`requestDelay/2` even with both slots warm (see the counterexample). -/
theorem throttle_spacing_spec (d : Nat) (arrivals : List Nat)
    (hchain : chainOk d [0, 1] arrivals = true) :
    (∀ i, i + 2 < (throttleTimes d [0, 1] arrivals).length →
      (throttleTimes d [0, 1] arrivals).getD i 0 + d * 1000 ≤
        (throttleTimes d [0, 1] arrivals).getD (i + 2) 0)
    ∧ (∀ i, i + 1 < (throttleTimes d [0, 1] arrivals).length →
      (throttleTimes d [0, 1] arrivals).getD i 0 ≤
        (throttleTimes d [0, 1] arrivals).getD (i + 1) 0) := by
  obtain ⟨-, -, hG1, hG2⟩ := throttleTimes_spec d arrivals [0, 1]
    (Or.inr ⟨0, 1, rfl, by omega⟩) hchain
  exact ⟨hG2, hG1⟩

theorem throttle_spacing_spec_witness :
    chainOk 1 [0, 1] [5000, 5700, 5700] = true ∧
    (throttleTimes 1 [0, 1] [5000, 5700, 5700]).getD 0 0 + 1 * 1000 ≤
      (throttleTimes 1 [0, 1] [5000, 5700, 5700]).getD 2 0 := by
  refine ⟨by decide, ?_⟩
  exact (throttle_spacing_spec 1 [5000, 5700, 5700] (by decide)).1 0 (by decide)

/-- C5 counterexample: requestDelay 1 s, arrivals at 5000 ms, 5700 ms and
5700 ms.  After two dispatches both tracked slots hold real dispatch
timestamps (5000 and 5700), yet the third dispatch happens at 6000 ms,
only 300 ms < requestDelay/2 = 500 ms after the second. -/
theorem throttle_spacing_counterexample :
    chainOk 1 [0, 1] [5000, 5700, 5700] = true ∧
    throttleTimes 1 [0, 1] [5000, 5700, 5700] = [5000, 5700, 6000] ∧
    throttleStateAfter 1 [0, 1] [5000, 5700] = [5000, 5700] ∧
    2 * (6000 - 5700) < 1 * 1000 := by
  exact ⟨by decide, by decide, by decide, by decide⟩

theorem offsetPattern_lenient_spec_witness :
    (isValidDate "2024-09-12".toList = true ∧ (['5'] : List Char) ≠ [] ∧
      (∀ c ∈ (['5'] : List Char), c.isDigit = true)) ∧
    convertTimeframe nowSample ("2024-09-12".toList ++ ' ' :: "5H".toList) false =
      processDateWithOffset "2024-09-12".toList "5H".toList ∧
    isValidFormat "5H".toList = true ∧
    processDateWithOffset "2024-09-12".toList "5H".toList =
      .ok "2024-09-11 2024-09-12".toList := by
  have h := offsetPattern_lenient_spec.1 nowSample "2024-09-12".toList ['5']
    (by decide) (by decide) (by decide)
  refine ⟨⟨by decide, by decide, by decide⟩, ?_, ?_, by decide⟩
  · exact h.1.1.trans (by decide)
  · exact h.2.1

end Trendspy
